import Mathlib

/-!
Verification of the topology-join engine of the RethinkDB integration
(`datadog_checks/rethinkdb/_queries.py`).

The source file composes ReQL queries (`filter`, `eq_join`, `pluck`, `merge`,
`without`, `concat_map`, `get`, `default`) over the RethinkDB system tables
`stats`, `server_config`, `table_config` and `table_status`.  We embed the
documents of those tables as a JSON-like value type `Val`, each ReQL operator
used by the source as a Lean function with the semantics documented in the
ReQL command reference (which the source file itself links to), and the three
join queries `query_servers_with_stats`, `query_tables_with_stats` and
`query_replicas_with_stats` as functions from a database snapshot to either a
ReQL runtime error or the list of yielded tuples.

Two classes of ReQL runtime errors matter for the source's behaviour and are
modelled separately, because they propagate differently:
- non-existence errors (missing field, out-of-range `nth`): skipped by
  `filter` (its default behaviour), skipped by `eq_join` key evaluation, and
  caught by `.default(...)`;
- type errors (e.g. `pluck` applied to `null`): never caught, they abort the
  query.
-/

/-- Document values stored in RethinkDB system tables: null, booleans,
strings, numbers, arrays and objects (field lists). -/
inductive Val where
  | null
  | bool (b : Bool)
  | str (s : String)
  | num (n : Int)
  | arr (xs : List Val)
  | obj (fs : List (String × Val))

/-- ReQL runtime errors relevant to the embedded queries: non-existence
errors (caught by `default`, skipped by `filter` and `eq_join`) and type
errors (always propagated). -/
inductive RErr where
  | nonExistence
  | typeError
deriving DecidableEq, Repr

mutual

/-- Boolean value equality, as used by the ReQL `==` comparison and by
primary-key lookup. -/
def Val.beq : Val → Val → Bool
  | .null, .null => true
  | .bool a, .bool b => a == b
  | .str a, .str b => a == b
  | .num a, .num b => a == b
  | .arr xs, .arr ys => Val.beqList xs ys
  | .obj fs, .obj gs => Val.beqFields fs gs
  | _, _ => false

/-- Element-wise equality of value arrays. -/
def Val.beqList : List Val → List Val → Bool
  | [], [] => true
  | x :: xs, y :: ys => Val.beq x y && Val.beqList xs ys
  | _, _ => false

/-- Element-wise equality of object field lists. -/
def Val.beqFields : List (String × Val) → List (String × Val) → Bool
  | [], [] => true
  | (k, v) :: fs, (l, w) :: gs => k == l && Val.beq v w && Val.beqFields fs gs
  | _, _ => false

end

mutual

/-- Soundness of `Val.beq`: it only identifies equal values. -/
def Val.eq_of_beq : ∀ a b : Val, Val.beq a b = true → a = b
  | .null, .null, _ => rfl
  | .bool x, .bool y, h => by
      simp only [Val.beq, beq_iff_eq] at h; exact congrArg Val.bool h
  | .str x, .str y, h => by
      simp only [Val.beq, beq_iff_eq] at h; exact congrArg Val.str h
  | .num x, .num y, h => by
      simp only [Val.beq, beq_iff_eq] at h; exact congrArg Val.num h
  | .arr xs, .arr ys, h => congrArg Val.arr (Val.eqList_of_beq xs ys h)
  | .obj fs, .obj gs, h => congrArg Val.obj (Val.eqFields_of_beq fs gs h)
  | .null, .bool _, h => nomatch h
  | .null, .str _, h => nomatch h
  | .null, .num _, h => nomatch h
  | .null, .arr _, h => nomatch h
  | .null, .obj _, h => nomatch h
  | .bool _, .null, h => nomatch h
  | .bool _, .str _, h => nomatch h
  | .bool _, .num _, h => nomatch h
  | .bool _, .arr _, h => nomatch h
  | .bool _, .obj _, h => nomatch h
  | .str _, .null, h => nomatch h
  | .str _, .bool _, h => nomatch h
  | .str _, .num _, h => nomatch h
  | .str _, .arr _, h => nomatch h
  | .str _, .obj _, h => nomatch h
  | .num _, .null, h => nomatch h
  | .num _, .bool _, h => nomatch h
  | .num _, .str _, h => nomatch h
  | .num _, .arr _, h => nomatch h
  | .num _, .obj _, h => nomatch h
  | .arr _, .null, h => nomatch h
  | .arr _, .bool _, h => nomatch h
  | .arr _, .str _, h => nomatch h
  | .arr _, .num _, h => nomatch h
  | .arr _, .obj _, h => nomatch h
  | .obj _, .null, h => nomatch h
  | .obj _, .bool _, h => nomatch h
  | .obj _, .str _, h => nomatch h
  | .obj _, .num _, h => nomatch h
  | .obj _, .arr _, h => nomatch h

/-- Soundness of `Val.beqList`. -/
def Val.eqList_of_beq : ∀ xs ys : List Val, Val.beqList xs ys = true → xs = ys
  | [], [], _ => rfl
  | x :: xs, y :: ys, h => by
      simp only [Val.beqList, Bool.and_eq_true] at h
      exact congrArg₂ List.cons (Val.eq_of_beq x y h.1) (Val.eqList_of_beq xs ys h.2)
  | [], _ :: _, h => nomatch h
  | _ :: _, [], h => nomatch h

/-- Soundness of `Val.beqFields`. -/
def Val.eqFields_of_beq :
    ∀ fs gs : List (String × Val), Val.beqFields fs gs = true → fs = gs
  | [], [], _ => rfl
  | (k, v) :: fs, (l, w) :: gs, h => by
      simp only [Val.beqFields, Bool.and_eq_true, beq_iff_eq] at h
      exact congrArg₂ List.cons
        (by rw [h.1.1, Val.eq_of_beq v w h.1.2]) (Val.eqFields_of_beq fs gs h.2)
  | [], _ :: _, h => nomatch h
  | _ :: _, [], h => nomatch h

end

mutual

/-- Reflexivity of `Val.beq`. -/
def Val.beq_refl : ∀ a : Val, Val.beq a a = true
  | .null => rfl
  | .bool x => by simp [Val.beq]
  | .str x => by simp [Val.beq]
  | .num x => by simp [Val.beq]
  | .arr xs => Val.beqList_refl xs
  | .obj fs => Val.beqFields_refl fs

/-- Reflexivity of `Val.beqList`. -/
def Val.beqList_refl : ∀ xs : List Val, Val.beqList xs xs = true
  | [] => rfl
  | x :: xs => by
      simp only [Val.beqList, Bool.and_eq_true]
      exact ⟨Val.beq_refl x, Val.beqList_refl xs⟩

/-- Reflexivity of `Val.beqFields`. -/
def Val.beqFields_refl : ∀ fs : List (String × Val), Val.beqFields fs fs = true
  | [] => rfl
  | (k, v) :: fs => by
      simp only [Val.beqFields, Bool.and_eq_true, beq_self_eq_true]
      exact ⟨⟨trivial, Val.beq_refl v⟩, Val.beqFields_refl fs⟩

end

instance : DecidableEq Val := fun a b =>
  decidable_of_iff (Val.beq a b = true)
    ⟨Val.eq_of_beq a b, fun h => h ▸ Val.beq_refl a⟩

instance {ε α : Type} [DecidableEq ε] [DecidableEq α] :
    DecidableEq (Except ε α) := fun a b =>
  match a, b with
  | .ok x, .ok y =>
      if h : x = y then .isTrue (by rw [h]) else .isFalse (by intro he; cases he; exact h rfl)
  | .error e, .error f =>
      if h : e = f then .isTrue (by rw [h]) else .isFalse (by intro he; cases he; exact h rfl)
  | .ok _, .error _ => .isFalse (by intro he; cases he)
  | .error _, .ok _ => .isFalse (by intro he; cases he)

/-- Lookup of a field in an object's field list (first occurrence). -/
def objFind : List (String × Val) → String → Option Val
  | [], _ => none
  | (k, v) :: fs, n => if k == n then some v else objFind fs n

/-- ReQL bracket operator `row['name']`: field access on an object; a missing
field is a non-existence error, access on a non-object is a type error. -/
def Val.getField : Val → String → Except RErr Val
  | .obj fs, n =>
      match objFind fs n with
      | some v => .ok v
      | none => .error .nonExistence
  | _, _ => .error .typeError

/-- ReQL `nth` operator: element access on an array; an out-of-range index is
a non-existence error, access on a non-array is a type error. -/
def Val.nth : Val → Nat → Except RErr Val
  | .arr xs, i =>
      match xs[i]? with
      | some v => .ok v
      | none => .error .nonExistence
  | _, _ => .error .typeError

/-- Field selection underlying ReQL `pluck`: keep the named top-level fields,
in selector order, silently omitting selectors with no matching field. -/
def pluckFieldsPure (names : List String) (fs : List (String × Val)) :
    List (String × Val) :=
  names.filterMap (fun n => (objFind fs n).map (fun v => (n, v)))

/-- ReQL `pluck` with plain top-level selectors applied to one document:
returns the restriction of the object to the named fields; applying it to a
non-object (in particular to `null`, as returned by a failed `get`) is a type
error. -/
def pluckTop (names : List String) : Val → Except RErr Val
  | .obj fs => .ok (.obj (pluckFieldsPure names fs))
  | _ => .error .typeError

/-- Removal of a field from a field list, as in ReQL `without` and as the
override step of `merge`. -/
def removeField (n : String) (fs : List (String × Val)) : List (String × Val) :=
  fs.filter (fun p => !(p.1 == n))

/-- ReQL `without` applied to one document: drops the named field; applying
it to a non-object is a type error. -/
def withoutField (n : String) : Val → Except RErr Val
  | .obj fs => .ok (.obj (removeField n fs))
  | _ => .error .typeError

/-- ReQL `merge` of two documents: fields of the second override fields of
the first; merging anything that is not two objects is a type error. -/
def mergeObj : Val → Val → Except RErr Val
  | .obj fs, .obj gs =>
      .ok (.obj (fs.filter (fun p => !(gs.any (fun q => q.1 == p.1))) ++ gs))
  | _, _ => .error .typeError

/-- ReQL `merge` with a one-field literal object, as in
`.merge({'table': v})`: overrides or appends the single named field. -/
def mergeField (row : Val) (n : String) (v : Val) : Except RErr Val :=
  mergeObj row (.obj [(n, v)])

/-- ReQL `default`: if the wrapped computation returns `null` or raises a
non-existence error, substitute the default value; type errors are not
caught. -/
def defaultVal (x : Except RErr Val) (d : Val) : Except RErr Val :=
  match x with
  | .ok .null => .ok d
  | .ok v => .ok v
  | .error .nonExistence => .ok d
  | .error .typeError => .error .typeError

/-- Error-propagating map over a list, as applied by a ReQL stream operator
to each row of the stream: the first error aborts the whole stream. -/
def mapE {α β : Type} (f : α → Except RErr β) : List α → Except RErr (List β)
  | [] => .ok []
  | x :: xs => do
      let y ← f x
      let ys ← mapE f xs
      pure (y :: ys)

/-- Error-propagating flat map over a list, as in ReQL `concat_map`. -/
def flatMapE {α β : Type} (f : α → Except RErr (List β)) :
    List α → Except RErr (List β)
  | [] => .ok []
  | x :: xs => do
      let ys ← f x
      let rest ← flatMapE f xs
      pure (ys ++ rest)

/-- ReQL `filter` with its default error handling: a row is kept when the
predicate evaluates to anything other than `false` or `null`; a row on which
the predicate raises a non-existence error is silently skipped; a type error
aborts the query. -/
def filterRows (pred : Val → Except RErr Val) : List Val → Except RErr (List Val)
  | [] => .ok []
  | x :: xs =>
      match pred x with
      | .ok v =>
          if v = Val.bool false ∨ v = Val.null then filterRows pred xs
          else do
            let rest ← filterRows pred xs
            pure (x :: rest)
      | .error .nonExistence => filterRows pred xs
      | .error .typeError => .error .typeError

/-- Primary-key check used by table `get`: whether a stored document's `id`
field equals the requested key. -/
def rowIdIs (k : Val) (row : Val) : Bool :=
  match row.getField "id" with
  | .ok v => Val.beq v k
  | .error _ => false

/-- Table lookup by primary key, returning the stored document when present:
the optional core of ReQL `get`. -/
def tableFind (rows : List Val) (k : Val) : Option Val :=
  rows.find? (rowIdIs k)

/-- ReQL `get` on a table: the document with the given primary key, or `null`
when no such document exists. -/
def tableGet (rows : List Val) (k : Val) : Val :=
  (tableFind rows k).getD .null

/-- ReQL `eq_join` of a left sequence against a right table on its primary
key: each left row whose key expression evaluates without error and matches a
right document produces one `{left, right}` pair; left rows with a missing
(non-existence) or `null` key, or with no matching right document, are
dropped (inner-join semantics); a type error in the key aborts the query. -/
def eqJoin (key : Val → Except RErr Val) (right : List Val) :
    List Val → Except RErr (List (Val × Val))
  | [] => .ok []
  | x :: xs =>
      match key x with
      | .error .nonExistence => eqJoin key right xs
      | .error .typeError => .error .typeError
      | .ok .null => eqJoin key right xs
      | .ok k =>
          match tableFind right k with
          | some r => do
              let rest ← eqJoin key right xs
              pure ((x, r) :: rest)
          | none => eqJoin key right xs

/-- Snapshot of the four RethinkDB system tables consumed by the queries
under verification. -/
structure DB where
  stats : List Val
  server_config : List Val
  table_config : List Val
  table_status : List Val

/-- Predicate `is_server_stats_row` from `query_servers_with_stats`:
`r.row['id'].nth(0) == 'server'`. -/
def isServerStatsRow (row : Val) : Except RErr Val := do
  let idv ← row.getField "id"
  let first ← idv.nth 0
  pure (.bool (Val.beq first (.str "server")))

/-- Join key `server_id` from `query_servers_with_stats`:
`r.row['id'].nth(1)`. -/
def serverStatsKey (row : Val) : Except RErr Val := do
  let idv ← row.getField "id"
  idv.nth 1

/-- Predicate `is_table_stats_row` from `query_tables_with_stats`:
`r.row['id'].nth(0) == 'table'`. -/
def isTableStatsRow (row : Val) : Except RErr Val := do
  let idv ← row.getField "id"
  let first ← idv.nth 0
  pure (.bool (Val.beq first (.str "table")))

/-- Join key `table_id` from `query_tables_with_stats`:
`r.row['id'].nth(1)`. -/
def tableStatsKey (row : Val) : Except RErr Val := do
  let idv ← row.getField "id"
  idv.nth 1

/-- Embedding of `query_servers_with_stats`: filter the stats table to server
stats rows, `eq_join` them against `server_config` on `id[1]`, and yield each
pair as `(server, server_stats)` (right row first, matching the order of the
Python generator's yielded tuple). -/
def query_servers_with_stats (db : DB) : Except RErr (List (Val × Val)) := do
  let filtered ← filterRows isServerStatsRow db.stats
  let joined ← eqJoin serverStatsKey db.server_config filtered
  pure (joined.map (fun p => (p.2, p.1)))

/-- Embedding of `query_tables_with_stats`: filter the stats table to table
stats rows, `eq_join` them against `table_config` on `id[1]`, and yield each
pair as `(table, table_stats)`. -/
def query_tables_with_stats (db : DB) : Except RErr (List (Val × Val)) := do
  let filtered ← filterRows isTableStatsRow db.stats
  let joined ← eqJoin tableStatsKey db.table_config filtered
  pure (joined.map (fun p => (p.2, p.1)))

/-- Stage `table_status.pluck('id', {'shards': ['replicas']})` of
`query_replicas_with_stats`, applied to one table_status row: keep the `id`
field and the `shards` field with each shard restricted to its `replicas`
field.  A `shards` value that is an array has `pluck(['replicas'])` mapped
over its elements (each of which must be an object); the degenerate cases of
an object or scalar `shards` value follow the same ReQL rules and are never
exercised by well-formed system tables. -/
def pluckStatusRow : Val → Except RErr Val
  | .obj fs => do
      let idPart :=
        match objFind fs "id" with
        | some v => [("id", v)]
        | none => ([] : List (String × Val))
      match objFind fs "shards" with
      | some (.arr xs) => do
          let plucked ← mapE (pluckTop ["replicas"]) xs
          pure (.obj (idPart ++ [("shards", .arr plucked)]))
      | some (.obj gs) =>
          pure (.obj (idPart ++ [("shards", .obj (pluckFieldsPure ["replicas"] gs))]))
      | some _ => pure (.obj idPart)
      | none => pure (.obj idPart)
  | _ => .error .typeError

/-- Stage `.concat_map(lambda row: row['shards'].map(lambda shard:
row.merge(shard.pluck('replicas'))))` of `query_replicas_with_stats`, applied
to one row: one output row per shard, merging the shard's plucked `replicas`
into the row. -/
def shardExpand (row : Val) : Except RErr (List Val) := do
  let shards ← row.getField "shards"
  match shards with
  | .arr xs =>
      mapE (fun shard => do
        let pl ← pluckTop ["replicas"] shard
        mergeObj row pl) xs
  | _ => .error .typeError

/-- Stage `.concat_map(lambda row: row['replicas'].map(lambda replica:
row.merge({'replica': replica.pluck('server', 'state')})))` of
`query_replicas_with_stats`, applied to one row: one output row per replica,
merging the replica plucked to `{server, state}` under the `replica` field. -/
def replicaExpand (row : Val) : Except RErr (List Val) := do
  let reps ← row.getField "replicas"
  match reps with
  | .arr xs =>
      mapE (fun rep => do
        let pl ← pluckTop ["server", "state"] rep
        mergeField row "replica" pl) xs
  | _ => .error .typeError

/-- The flattening prefix of the `query_replicas_with_stats` pipeline, from
`table_status.pluck(...)` through the final `.without('replicas')`: turns the
list of table_status rows into one flat record per (table, shard, replica),
each of the form `{'table': tableId, 'replica': {server, state}}`. -/
def flattenTableStatuses (rows : List Val) : Except RErr (List Val) := do
  let s1 ← mapE pluckStatusRow rows
  let s2 ← mapE (fun row => do
      let idv ← row.getField "id"
      mergeField row "table" idv) s1
  let s3 ← mapE (withoutField "id") s2
  let s4 ← flatMapE shardExpand s3
  let s5 ← mapE (withoutField "shards") s4
  let s6 ← flatMapE replicaExpand s5
  mapE (withoutField "replicas") s6

/-- Stage `.merge({'table': table_config.get(r.row['table']).pluck('id',
'db', 'name')})` of `query_replicas_with_stats`: look up the owning table's
configuration by primary key and override the `table` field with its
`{id, db, name}` projection.  There is no `default` here: when the lookup
returns `null`, the `pluck` raises a type error that aborts the query. -/
def enrichTable (db : DB) (row : Val) : Except RErr Val := do
  let tkey ← row.getField "table"
  let tPl ← pluckTop ["id", "db", "name"] (tableGet db.table_config tkey)
  mergeField row "table" tPl

/-- The server value computed by the stage `.merge({'server':
server_config.get(r.row['replica']['server']).default({'id':
None}).pluck('id', 'name', 'tags')})`: the `{id, name, tags}` projection of
the hosting server's configuration, with `{'id': None}` substituted by
`default` when the lookup returns `null` or the key is missing. -/
def serverValueFor (db : DB) (row : Val) : Except RErr Val := do
  let sVal ← defaultVal (do
      let rep ← row.getField "replica"
      let skey ← rep.getField "server"
      pure (tableGet db.server_config skey)) (.obj [("id", .null)])
  pluckTop ["id", "name", "tags"] sVal

/-- The server-enrichment stage of `query_replicas_with_stats`: merge the
computed server value under the `server` field. -/
def enrichServer (db : DB) (row : Val) : Except RErr Val := do
  let sPl ← serverValueFor db row
  mergeField row "server" sPl

/-- The stats value computed by the stage `.merge({'stats':
stats.get(['table_server', r.row['table']['id'],
r.row['server']['id']]).default({}).pluck('query_engine',
'storage_engine')})`: the `{query_engine, storage_engine}` projection of the
replica's stats row, with the empty object substituted by `default` when the
lookup returns `null` or a key component is missing. -/
def statsValueFor (db : DB) (row : Val) : Except RErr Val := do
  let stVal ← defaultVal (do
      let t ← row.getField "table"
      let tid ← t.getField "id"
      let s ← row.getField "server"
      let sid ← s.getField "id"
      pure (tableGet db.stats (.arr [.str "table_server", tid, sid]))) (.obj [])
  pluckTop ["query_engine", "storage_engine"] stVal

/-- The stats-enrichment stage of `query_replicas_with_stats`: merge the
computed stats value under the `stats` field. -/
def enrichStats (db : DB) (row : Val) : Except RErr Val := do
  let stPl ← statsValueFor db row
  mergeField row "stats" stPl

/-- The enrichment suffix of the `query_replicas_with_stats` pipeline applied
to one flattened replica record: resolve the owning table's configuration,
the hosting server's configuration and the replica's statistics, in the order
of the three `.merge(...)` stages of the source query. -/
def enrichReplica (db : DB) (row : Val) : Except RErr Val := do
  let r1 ← enrichTable db row
  let r2 ← enrichServer db r1
  enrichStats db r2

/-- The tuple construction of the Python generator's final loop: project the
`table`, `server`, `replica` and `stats` fields of an enriched row into the
yielded 4-tuple. -/
def tupleOfRow (row : Val) : Except RErr (Val × Val × Val × Val) := do
  let t ← row.getField "table"
  let s ← row.getField "server"
  let rep ← row.getField "replica"
  let st ← row.getField "stats"
  pure (t, s, rep, st)

/-- Embedding of `query_replicas_with_stats`: flatten the table statuses into
one record per replica, enrich each record with table, server and stats
information, and yield one `(table, server, replica, stats)` tuple per
record. -/
def query_replicas_with_stats (db : DB) :
    Except RErr (List (Val × Val × Val × Val)) := do
  let flat ← flattenTableStatuses db.table_status
  let enriched ← mapE (enrichReplica db) flat
  mapE tupleOfRow enriched

/-- Whether a value is an object, as required of every stored table row. -/
def isObjB : Val → Bool
  | .obj _ => true
  | _ => false

/-- Whether a value is a string. -/
def isStrB : Val → Bool
  | .str _ => true
  | _ => false

/-- Whether a value is an array of strings — the shape of every composite
identifier in the RethinkDB `stats` system table. -/
def isStrArrB : Val → Bool
  | .arr xs => xs.all isStrB
  | _ => false

/-- Well-formedness of one `stats` row: an object whose `id` field is an
array of strings, as RethinkDB guarantees for its stats system table. -/
def statsRowWF (row : Val) : Bool :=
  match row with
  | .obj fs =>
      match objFind fs "id" with
      | some v => isStrArrB v
      | none => false
  | _ => false

/-- Well-formedness of the `stats` table: every row well-formed. -/
def statsWF (l : List Val) : Bool := l.all statsRowWF

/-- Well-formedness of a configuration table (`server_config`,
`table_config`): every stored row is an object. -/
def configRowsWF (l : List Val) : Bool := l.all isObjB

/-- Whether two rows carry equal (and present) primary keys. -/
def sameId (x y : Val) : Bool :=
  match x.getField "id", y.getField "id" with
  | .ok a, .ok b => Val.beq a b
  | _, _ => false

/-- Primary-key uniqueness of a table: no two rows share an `id` value —
the invariant RethinkDB maintains for every stored table. -/
def idDistinct : List Val → Bool
  | [] => true
  | x :: xs => xs.all (fun y => !sameId x y) && idDistinct xs

/-- Well-formedness of one shard inside a `table_status` row: an object
whose `replicas` field is an array of objects. -/
def shardWF (sh : Val) : Bool :=
  match sh with
  | .obj fs =>
      match objFind fs "replicas" with
      | some (.arr reps) => reps.all isObjB
      | _ => false
  | _ => false

/-- Well-formedness of one `table_status` row: an object with an `id` field
and a `shards` field holding an array of well-formed shards. -/
def statusRowWF (row : Val) : Bool :=
  match row with
  | .obj fs =>
      (objFind fs "id").isSome &&
        (match objFind fs "shards" with
         | some (.arr shs) => shs.all shardWF
         | _ => false)
  | _ => false

/-- Well-formedness of the `table_status` table: every row well-formed. -/
def statusesWF (l : List Val) : Bool := l.all statusRowWF

/-- The `id` field of a row, with `null` standing in for the degenerate
cases (used only on rows whose well-formedness guarantees the field). -/
def rowIdD (row : Val) : Val :=
  match row with
  | .obj fs => (objFind fs "id").getD .null
  | _ => .null

/-- The shard list of a `table_status` row (empty in degenerate cases). -/
def rowShards (row : Val) : List Val :=
  match row with
  | .obj fs =>
      match objFind fs "shards" with
      | some (.arr shs) => shs
      | _ => []
  | _ => []

/-- The replica list of a shard (empty in degenerate cases). -/
def shardReplicas (sh : Val) : List Val :=
  match sh with
  | .obj fs =>
      match objFind fs "replicas" with
      | some (.arr reps) => reps
      | _ => []
  | _ => []

/-- The `{server, state}` projection of a replica document, as produced by
`replica.pluck('server', 'state')` on well-formed data. -/
def replicaPluck (rep : Val) : Val :=
  match rep with
  | .obj fs => .obj (pluckFieldsPure ["server", "state"] fs)
  | _ => .null

/-- One flattened replica record, as produced by the flattening prefix of
`query_replicas_with_stats` for a given originating table id and replica. -/
def flatRecord (tid : Val) (rep : Val) : Val :=
  .obj [("table", tid), ("replica", replicaPluck rep)]

/-- The flattened replica records contributed by one `table_status` row: one
record per replica of each shard, each anchored to the row's table id. -/
def flatRow (row : Val) : List Val :=
  (rowShards row).flatMap
    (fun sh => (shardReplicas sh).map (fun rep => flatRecord (rowIdD row) rep))

/-- The first element of a stats row's composite identifier, when the row has
a string there: the only datum the source's filter predicates inspect. -/
def idHead (row : Val) : Option String :=
  match row.getField "id" with
  | .ok (.arr (.str s :: _)) => some s
  | _ => none

/-- Whether a value is an object all of whose field names come from the given
list: the field restriction promised for the output tuples. -/
def fieldsSub (v : Val) (names : List String) : Bool :=
  match v with
  | .obj fs => fs.all (fun p => names.contains p.1)
  | _ => false

/-- Scenario for C1: one table with a single replica hosted on server `B`,
which has no `server_config` row (a disconnected server). -/
def c1db : DB :=
  { stats := [],
    server_config := [],
    table_config := [.obj [("id", .str "T1"), ("db", .str "d"), ("name", .str "t1")]],
    table_status := [
      .obj [("id", .str "T1"),
            ("shards", .arr [
              .obj [("replicas", .arr [
                .obj [("server", .str "B"), ("state", .str "disconnected")]])]])]] }

/-- Scenario for C2: a stats row whose composite identifier has the unlisted
shape `['server', 's1', 'junk']`, together with a matching config row. -/
def c2db : DB :=
  { stats := [.obj [("id", .arr [.str "server", .str "s1", .str "junk"]),
                    ("extra", .num 1)]],
    server_config := [.obj [("id", .str "s1"), ("name", .str "a")]],
    table_config := [],
    table_status := [] }

/-- A server-stats row for server `A` used in the C3 scenario. -/
def c3statsA : Val :=
  .obj [("id", .arr [.str "server", .str "A"]), ("query_engine", .num 1)]

/-- A server-stats row for server `B` (which has no config row) used in the
C3 scenario. -/
def c3statsB : Val :=
  .obj [("id", .arr [.str "server", .str "B"]), ("query_engine", .num 2)]

/-- The server_config row for server `A` used in the C3 scenario. -/
def c3cfgA : Val :=
  .obj [("id", .str "A"), ("name", .str "srvA"), ("tags", .arr [])]

/-- Scenario for C3: stats rows for servers `A` and `B` plus the cluster row,
with a config row only for `A`. -/
def c3db : DB :=
  { stats := [c3statsA, c3statsB, .obj [("id", .arr [.str "cluster"])]],
    server_config := [c3cfgA],
    table_config := [],
    table_status := [] }

/-- Scenario for C4: a table with zero shards, and a table with one empty
shard and one two-replica shard. -/
def c4db : DB :=
  { stats := [],
    server_config := [],
    table_config := [],
    table_status := [
      .obj [("id", .str "T0"), ("shards", .arr [])],
      .obj [("id", .str "T1"),
            ("shards", .arr [
              .obj [("replicas", .arr [])],
              .obj [("replicas", .arr [
                .obj [("server", .str "A"), ("state", .str "ready")],
                .obj [("server", .str "B"), ("state", .str "backfilling")]])]])]] }

/-- Scenario for C5: a replica on a configured server for which the stats
table holds no `['table_server', ...]` row. -/
def c5db : DB :=
  { stats := [.obj [("id", .arr [.str "cluster"])]],
    server_config := [.obj [("id", .str "A"), ("name", .str "srvA"), ("tags", .arr [])]],
    table_config := [.obj [("id", .str "T1"), ("db", .str "d"), ("name", .str "t1")]],
    table_status := [
      .obj [("id", .str "T1"),
            ("shards", .arr [
              .obj [("replicas", .arr [
                .obj [("server", .str "A"), ("state", .str "ready")]])]])]] }

/-- The flattened replica record arising from the C5 scenario. -/
def c5rec : Val :=
  .obj [("table", .str "T1"),
        ("replica", .obj [("server", .str "A"), ("state", .str "ready")])]

/-- Scenario for C6 (the specification's own two-replica scenario): table
`T1` with replicas on configured server `A` and disconnected server `B`,
with a stats row only for the `(T1, A)` replica. -/
def c6db : DB :=
  { stats := [
      .obj [("id", .arr [.str "cluster"])],
      .obj [("id", .arr [.str "table_server", .str "T1", .str "A"]),
            ("query_engine", .num 3), ("storage_engine", .num 4)]],
    server_config := [.obj [("id", .str "A"), ("name", .str "srvA"), ("tags", .arr [.str "t"])]],
    table_config := [.obj [("id", .str "T1"), ("db", .str "d"), ("name", .str "t1")]],
    table_status := [
      .obj [("id", .str "T1"),
            ("shards", .arr [
              .obj [("replicas", .arr [
                .obj [("server", .str "A"), ("state", .str "ready")],
                .obj [("server", .str "B"), ("state", .str "disconnected")]])]])]] }

/-- Scenario for C7: a table_status row for table `T2` that has no
table_config row. -/
def c7db : DB :=
  { stats := [],
    server_config := [],
    table_config := [.obj [("id", .str "T1"), ("db", .str "d"), ("name", .str "t1")]],
    table_status := [
      .obj [("id", .str "T2"),
            ("shards", .arr [
              .obj [("replicas", .arr [
                .obj [("server", .str "A"), ("state", .str "ready")]])]])]] }

/-- The flattened replica record arising from the C7 scenario. -/
def c7rec : Val :=
  .obj [("table", .str "T2"),
        ("replica", .obj [("server", .str "A"), ("state", .str "ready")])]

/-- Scenario for C9: a server_config row carrying the extraneous field
`cache_size_mb`, which a field-restricted output would have to drop. -/
def c9db : DB :=
  { stats := [.obj [("id", .arr [.str "server", .str "A"]), ("query_engine", .num 1)]],
    server_config := [
      .obj [("id", .str "A"), ("name", .str "srvA"), ("cache_size_mb", .num 42)]],
    table_config := [],
    table_status := [] }

/-- Scenario for the amended C9: source rows of every kind carry extraneous
fields, which the replica query's plucks must all drop. -/
def c9rdb : DB :=
  { stats := [
      .obj [("id", .arr [.str "table_server", .str "T1", .str "A"]),
            ("query_engine", .num 3), ("storage_engine", .num 4), ("server", .str "A")]],
    server_config := [
      .obj [("id", .str "A"), ("name", .str "srvA"), ("tags", .arr []),
            ("cache_size_mb", .num 42)]],
    table_config := [
      .obj [("id", .str "T1"), ("db", .str "d"), ("name", .str "t1"),
            ("primary_key", .str "id")]],
    table_status := [
      .obj [("id", .str "T1"),
            ("shards", .arr [
              .obj [("replicas", .arr [
                .obj [("server", .str "A"), ("state", .str "ready"),
                      ("primary", .bool true)]])]]),
            ("status", .obj [("ready_for_reads", .bool true)])]] }

/-- Scenario for C10: replica hosted on unconfigured server `B`, while the
stats table does hold a row keyed `['table_server', 'T1', 'B']` for that very
table and server. -/
def c10db : DB :=
  { stats := [
      .obj [("id", .arr [.str "table_server", .str "T1", .str "B"]),
            ("query_engine", .num 9), ("storage_engine", .num 8)]],
    server_config := [],
    table_config := [.obj [("id", .str "T1"), ("db", .str "d"), ("name", .str "t1")]],
    table_status := [
      .obj [("id", .str "T1"),
            ("shards", .arr [
              .obj [("replicas", .arr [
                .obj [("server", .str "B"), ("state", .str "disconnected")]])]])]] }

/-- The flattened replica record arising from the C10 scenario. -/
def c10rec : Val :=
  .obj [("table", .str "T1"),
        ("replica", .obj [("server", .str "B"), ("state", .str "disconnected")])]

/-- Unfolding of `mapE` on a cons cell. -/
theorem mapE_cons {α β : Type} (f : α → Except RErr β) (x : α) (xs : List α) :
    mapE f (x :: xs) =
      (f x).bind (fun y => (mapE f xs).bind (fun ys => .ok (y :: ys))) := rfl

/-- A `mapE` whose function succeeds pointwise computes the pointwise map. -/
theorem mapE_ok_of_forall {α β : Type} (f : α → Except RErr β) (g : α → β) :
    ∀ l : List α, (∀ a ∈ l, f a = .ok (g a)) → mapE f l = .ok (l.map g)
  | [], _ => rfl
  | x :: xs, h => by
      have hx : f x = .ok (g x) := h x (List.mem_cons_self x xs)
      have hxs := mapE_ok_of_forall f g xs (fun a ha => h a (List.mem_cons_of_mem x ha))
      rw [mapE_cons, hx, hxs]
      rfl

/-- A `mapE` whose function succeeds on every element succeeds, with one
output per input. -/
theorem mapE_exists_of_forall {α β : Type} (f : α → Except RErr β) :
    ∀ l : List α, (∀ a ∈ l, ∃ b, f a = .ok b) →
      ∃ out, mapE f l = .ok out ∧ out.length = l.length
  | [], _ => ⟨[], rfl, rfl⟩
  | x :: xs, h => by
      obtain ⟨b, hb⟩ := h x (List.mem_cons_self x xs)
      obtain ⟨out, hout, hlen⟩ :=
        mapE_exists_of_forall f xs (fun a ha => h a (List.mem_cons_of_mem x ha))
      exact ⟨b :: out, by rw [mapE_cons, hb, hout]; rfl, by simp [hlen]⟩

/-- Every output of a successful `mapE` is the image of some input. -/
theorem mapE_mem {α β : Type} (f : α → Except RErr β) :
    ∀ l : List α, ∀ out : List β, mapE f l = .ok out →
      ∀ b ∈ out, ∃ a ∈ l, f a = .ok b
  | [], out, h, b, hb => by
      cases h
      cases hb
  | x :: xs, out, h, b, hb => by
      rw [mapE_cons] at h
      cases hfx : f x with
      | error e => rw [hfx] at h; cases h
      | ok y =>
          rw [hfx] at h
          cases hrest : mapE f xs with
          | error e => rw [hrest] at h; cases h
          | ok ys =>
              rw [hrest] at h
              cases h
              rcases List.mem_cons.mp hb with hby | hbys
              · exact ⟨x, List.mem_cons_self x xs, hby ▸ hfx⟩
              · obtain ⟨a, ha, hfa⟩ := mapE_mem f xs ys hrest b hbys
                exact ⟨a, List.mem_cons_of_mem x ha, hfa⟩

/-- A `mapE` over a list containing an element on which the function fails
itself fails. -/
theorem mapE_error_of_mem {α β : Type} (f : α → Except RErr β) :
    ∀ l : List α, ∀ a ∈ l, ∀ e, f a = .error e →
      ∃ e', mapE f l = .error e'
  | x :: xs, a, ha, e, he => by
      rcases List.mem_cons.mp ha with hax | haxs
      · subst hax
        rw [mapE_cons, he]
        exact ⟨e, rfl⟩
      · cases hfx : f x with
        | error e0 =>
            rw [mapE_cons, hfx]
            exact ⟨e0, rfl⟩
        | ok y =>
            obtain ⟨e', he'⟩ := mapE_error_of_mem f xs a haxs e he
            rw [mapE_cons, hfx, he']
            exact ⟨e', rfl⟩

/-- Unfolding of `flatMapE` on a cons cell. -/
theorem flatMapE_cons {α β : Type} (f : α → Except RErr (List β)) (x : α)
    (xs : List α) :
    flatMapE f (x :: xs) =
      (f x).bind (fun ys => (flatMapE f xs).bind (fun rest => .ok (ys ++ rest))) := rfl

/-- A `flatMapE` whose function succeeds pointwise computes the pointwise
flat map. -/
theorem flatMapE_ok_of_forall {α β : Type} (f : α → Except RErr (List β))
    (g : α → List β) :
    ∀ l : List α, (∀ a ∈ l, f a = .ok (g a)) → flatMapE f l = .ok (l.flatMap g)
  | [], _ => rfl
  | x :: xs, h => by
      have hx : f x = .ok (g x) := h x (List.mem_cons_self x xs)
      have hxs := flatMapE_ok_of_forall f g xs (fun a ha => h a (List.mem_cons_of_mem x ha))
      rw [flatMapE_cons, hx, hxs]
      rfl

/-- Field lookup distributes over list append. -/
theorem objFind_append (as bs : List (String × Val)) (n : String) :
    objFind (as ++ bs) n =
      match objFind as n with
      | some v => some v
      | none => objFind bs n := by
  induction as with
  | nil => rfl
  | cons p as ih =>
      by_cases hp : p.1 == n
      · simp [objFind, hp]
      · simp only [List.cons_append, objFind, hp]
        exact ih

/-- Field lookup misses on a list whose keys all differ from the name. -/
theorem objFind_eq_none (fs : List (String × Val)) (n : String)
    (h : ∀ p ∈ fs, (p.1 == n) = false) : objFind fs n = none := by
  induction fs with
  | nil => rfl
  | cons p fs ih =>
      have hp := h p (List.mem_cons_self p fs)
      simp only [objFind, hp]
      exact ih (fun q hq => h q (List.mem_cons_of_mem p hq))

/-- Unfolding of `mergeField` on an object: the named field is overridden
(removed from its old position and appended). -/
theorem mergeField_obj (fs : List (String × Val)) (n : String) (v : Val) :
    mergeField (.obj fs) n v =
      .ok (.obj (fs.filter (fun p => !(n == p.1)) ++ [(n, v)])) := by
  simp [mergeField, mergeObj]

/-- Reading back the field just written by `mergeField`. -/
theorem getField_mergeField_self (fs : List (String × Val)) (n : String) (v : Val) :
    Val.getField (.obj (fs.filter (fun p => !(n == p.1)) ++ [(n, v)])) n = .ok v := by
  have hnone : objFind (fs.filter (fun p => !(n == p.1))) n = none := by
    apply objFind_eq_none
    intro p hp
    have h1 : n ≠ p.1 := beq_eq_false_iff_ne.mp (by simpa using List.of_mem_filter hp)
    exact beq_eq_false_iff_ne.mpr (fun h => h1 h.symm)
  simp only [Val.getField, objFind_append, hnone, objFind, beq_self_eq_true, if_pos]

/-- Reading any other field after a `mergeField` sees the original object. -/
theorem getField_mergeField_other (fs : List (String × Val)) (n m : String)
    (v : Val) (hmn : m ≠ n) :
    Val.getField (.obj (fs.filter (fun p => !(n == p.1)) ++ [(n, v)])) m =
      Val.getField (.obj fs) m := by
  have hfind : objFind (fs.filter (fun p => !(n == p.1))) m = objFind fs m := by
    induction fs with
    | nil => rfl
    | cons p fs ih =>
        by_cases hkeep : (n == p.1) = true
        · have hpn : n = p.1 := (beq_iff_eq).mp hkeep
          have hpm : (p.1 == m) = false :=
            beq_eq_false_iff_ne.mpr (fun h => hmn (hpn.trans h).symm)
          simp only [List.filter_cons, hkeep, Bool.not_true, Bool.false_eq_true,
            if_neg, objFind, hpm]
          simpa using ih
        · have hkeep' : (!(n == p.1)) = true := by
            cases h : n == p.1
            · rfl
            · exact absurd h hkeep
          by_cases hpm : (p.1 == m) = true
          · simp [List.filter_cons, hkeep', objFind, hpm]
          · have hpm' : (p.1 == m) = false := by
              cases h : p.1 == m
              · rfl
              · exact absurd h hpm
            simp only [List.filter_cons, hkeep', if_pos, objFind, hpm']
            exact ih
  simp only [Val.getField, objFind_append, hfind]
  cases hh : objFind fs m
  · have hlast : objFind [(n, v)] m = none := by
      have : (n == m) = false := by
        cases h : n == m
        · rfl
        · exact absurd ((beq_iff_eq).mp h).symm hmn
      simp [objFind, this]
    simp [hlast]
  · simp

/-- Every field of a plucked object is one of the requested names. -/
theorem pluckFieldsPure_sub (names : List String) (fs : List (String × Val)) :
    ∀ p ∈ pluckFieldsPure names fs, p.1 ∈ names := by
  intro p hp
  obtain ⟨n, hn, hmap⟩ := List.mem_filterMap.mp hp
  cases hfind : objFind fs n with
  | none => rw [hfind] at hmap; cases hmap
  | some v =>
      rw [hfind] at hmap
      cases hmap
      exact hn

/-- A successful `pluckTop` yields an object restricted to the requested
names. -/
theorem pluckTop_fieldsSub (names : List String) (v w : Val)
    (h : pluckTop names v = .ok w) : fieldsSub w names = true := by
  cases v with
  | obj fs =>
      simp only [pluckTop] at h
      cases h
      simp only [fieldsSub, List.all_eq_true]
      intro p hp
      exact List.elem_eq_true_of_mem (pluckFieldsPure_sub names fs p hp)
  | null => cases h
  | bool b => cases h
  | str s => cases h
  | num x => cases h
  | arr xs => cases h


/-- Reduction of an Except bind on a success value. -/
theorem ok_bind {α β : Type} (a : α) (f : α → Except RErr β) :
    ((Except.ok a : Except RErr α) >>= f) = f a := rfl

/-- Reduction of an Except bind on an error value. -/
theorem error_bind {α β : Type} (e : RErr) (f : α → Except RErr β) :
    ((Except.error e : Except RErr α) >>= f) = .error e := rfl

/-- Reduction of an Except map on a success value. -/
theorem ok_map {α β : Type} (a : α) (g : α → β) :
    (g <$> (Except.ok a : Except RErr α)) = .ok (g a) := rfl

/-- Reduction of an Except map on an error value. -/
theorem error_map {α β : Type} (e : RErr) (g : α → β) :
    (g <$> (Except.error e : Except RErr α)) = .error e := rfl

/-- A `tableGet` with no matching row returns `null`. -/
theorem tableGet_none (rows : List Val) (k : Val) (h : tableFind rows k = none) :
    tableGet rows k = .null := by
  simp [tableGet, h]

/-- A `tableGet` with a matching row returns it. -/
theorem tableGet_some (rows : List Val) (k : Val) (r : Val)
    (h : tableFind rows k = some r) : tableGet rows k = r := by
  simp [tableGet, h]

/-- A found row is a member of its table. -/
theorem tableFind_mem (rows : List Val) (k : Val) (r : Val)
    (h : tableFind rows k = some r) : r ∈ rows :=
  List.mem_of_find?_eq_some h

/-- Combined specification of `mergeField` on an object: success, the new
field's value, and preservation of all other fields. -/
theorem mergeField_spec (fs : List (String × Val)) (n : String) (v : Val) :
    ∃ gs, mergeField (.obj fs) n v = .ok (.obj gs) ∧
      Val.getField (.obj gs) n = .ok v ∧
      ∀ m, m ≠ n → Val.getField (.obj gs) m = Val.getField (.obj fs) m :=
  ⟨_, mergeField_obj fs n v, getField_mergeField_self fs n v,
    fun m hm => getField_mergeField_other fs n m v hm⟩

/-- A restricted value is necessarily an object. -/
theorem isObjB_of_fieldsSub (v : Val) (names : List String)
    (h : fieldsSub v names = true) : isObjB v = true := by
  cases v <;> first | rfl | exact absurd h (by simp [fieldsSub])

/-- Missing table_config row: the table-enrichment stage raises the type
error produced by plucking the `null` that `get` returned; there is no
`default` on this lookup. -/
theorem enrichTable_null (db : DB) (rec tkey : Val)
    (htk : rec.getField "table" = .ok tkey)
    (hnone : tableFind db.table_config tkey = none) :
    enrichTable db rec = .error .typeError := by
  simp [enrichTable, htk, ok_bind, error_bind,
    tableGet_none db.table_config tkey hnone, pluckTop]

/-- Present table_config row: the table-enrichment stage overrides the
`table` field with the row's `{id, db, name}` projection and leaves every
other field unchanged. -/
theorem enrichTable_found (db : DB) (fs cfgfs : List (String × Val)) (tkey : Val)
    (htk : Val.getField (.obj fs) "table" = .ok tkey)
    (hfind : tableFind db.table_config tkey = some (.obj cfgfs)) :
    ∃ gs, enrichTable db (.obj fs) = .ok (.obj gs) ∧
      Val.getField (.obj gs) "table" =
        .ok (.obj (pluckFieldsPure ["id", "db", "name"] cfgfs)) ∧
      ∀ m, m ≠ "table" → Val.getField (.obj gs) m = Val.getField (.obj fs) m := by
  obtain ⟨gs, hmerge, hself, hother⟩ :=
    mergeField_spec fs "table" (.obj (pluckFieldsPure ["id", "db", "name"] cfgfs))
  refine ⟨gs, ?_, hself, hother⟩
  simp [enrichTable, htk, ok_bind, tableGet_some db.table_config tkey _ hfind,
    pluckTop, hmerge]

/-- The computed server value depends only on the row's `replica` field. -/
theorem serverValueFor_congr (db : DB) (a b : Val)
    (h : a.getField "replica" = b.getField "replica") :
    serverValueFor db a = serverValueFor db b := by
  simp [serverValueFor, h]

/-- The computed stats value depends only on the row's `table` and `server`
fields. -/
theorem statsValueFor_congr (db : DB) (a b : Val)
    (ht : a.getField "table" = b.getField "table")
    (hs : a.getField "server" = b.getField "server") :
    statsValueFor db a = statsValueFor db b := by
  simp [statsValueFor, ht, hs]

/-- Missing server_config row: `default` substitutes `{'id': None}`, whose
`{id, name, tags}` pluck is exactly `{'id': None}` — the `name` and `tags`
selectors find no field and are silently dropped. -/
theorem serverValueFor_default (db : DB) (rec rp skey : Val)
    (hrep : rec.getField "replica" = .ok rp)
    (hs : rp.getField "server" = .ok skey)
    (hnone : tableFind db.server_config skey = none) :
    serverValueFor db rec = .ok (.obj [("id", .null)]) := by
  simp [serverValueFor, hrep, hs, ok_bind, ok_map,
    tableGet_none db.server_config skey hnone, defaultVal, pluckTop,
    pluckFieldsPure, objFind]

/-- Present server_config row: the computed server value is the row's
`{id, name, tags}` projection. -/
theorem serverValueFor_found (db : DB) (rec rp skey : Val)
    (cfgfs : List (String × Val))
    (hrep : rec.getField "replica" = .ok rp)
    (hs : rp.getField "server" = .ok skey)
    (hfind : tableFind db.server_config skey = some (.obj cfgfs)) :
    serverValueFor db rec = .ok (.obj (pluckFieldsPure ["id", "name", "tags"] cfgfs)) := by
  simp [serverValueFor, hrep, hs, ok_bind, ok_map,
    tableGet_some db.server_config skey _ hfind, defaultVal, pluckTop]

/-- The server-enrichment stage always succeeds on a record whose `replica`
field is an object, given that server_config rows are objects, and its
result is restricted to `{id, name, tags}`. -/
theorem serverValueFor_ok (db : DB) (rec : Val) (rpfs : List (String × Val))
    (hrep : rec.getField "replica" = .ok (.obj rpfs))
    (hcfg : configRowsWF db.server_config = true) :
    ∃ sPl, serverValueFor db rec = .ok sPl ∧
      fieldsSub sPl ["id", "name", "tags"] = true := by
  cases hsk : objFind rpfs "server" with
  | none =>
      refine ⟨.obj [("id", .null)], ?_, by decide⟩
      have hserr : Val.getField (.obj rpfs) "server" = .error .nonExistence := by
        simp [Val.getField, hsk]
      simp [serverValueFor, hrep, hserr, ok_bind, error_map, defaultVal,
        pluckTop, pluckFieldsPure, objFind]
  | some skey =>
      have hs : Val.getField (.obj rpfs) "server" = .ok skey := by
        simp [Val.getField, hsk]
      cases hfind : tableFind db.server_config skey with
      | none =>
          exact ⟨.obj [("id", .null)],
            serverValueFor_default db rec (.obj rpfs) skey hrep hs hfind, by decide⟩
      | some srow =>
          have hmem : srow ∈ db.server_config := tableFind_mem _ _ _ hfind
          have hobj : isObjB srow = true := (List.all_eq_true.mp hcfg) srow hmem
          cases srow with
          | obj cfgfs =>
              refine ⟨.obj (pluckFieldsPure ["id", "name", "tags"] cfgfs),
                serverValueFor_found db rec (.obj rpfs) skey cfgfs hrep hs hfind, ?_⟩
              exact pluckTop_fieldsSub _ (.obj cfgfs) _ rfl
          | null => cases hobj
          | bool b => cases hobj
          | str s => cases hobj
          | num x => cases hobj
          | arr xs => cases hobj

/-- Missing replica-stats row: `default` substitutes the empty object, whose
`{query_engine, storage_engine}` pluck is the empty object. -/
theorem statsValueFor_empty (db : DB) (rec tv sv tid sid : Val)
    (ht : rec.getField "table" = .ok tv) (htid : tv.getField "id" = .ok tid)
    (hs : rec.getField "server" = .ok sv) (hsid : sv.getField "id" = .ok sid)
    (hnone : tableFind db.stats (.arr [.str "table_server", tid, sid]) = none) :
    statsValueFor db rec = .ok (.obj []) := by
  simp [statsValueFor, ht, htid, hs, hsid, ok_bind, ok_map,
    tableGet_none db.stats _ hnone, defaultVal, pluckTop, pluckFieldsPure, objFind]

/-- Present replica-stats row: the computed stats value is the row's
`{query_engine, storage_engine}` projection. -/
theorem statsValueFor_found (db : DB) (rec tv sv tid sid : Val)
    (stfs : List (String × Val))
    (ht : rec.getField "table" = .ok tv) (htid : tv.getField "id" = .ok tid)
    (hs : rec.getField "server" = .ok sv) (hsid : sv.getField "id" = .ok sid)
    (hfind : tableFind db.stats (.arr [.str "table_server", tid, sid]) =
      some (.obj stfs)) :
    statsValueFor db rec =
      .ok (.obj (pluckFieldsPure ["query_engine", "storage_engine"] stfs)) := by
  simp [statsValueFor, ht, htid, hs, hsid, ok_bind, ok_map,
    tableGet_some db.stats _ _ hfind, defaultVal, pluckTop]

/-- The stats-enrichment stage always succeeds on a record whose `table` and
`server` fields are objects, given a well-formed stats table, and its result
is restricted to `{query_engine, storage_engine}`. -/
theorem statsValueFor_ok (db : DB) (rec : Val) (tfs sfs : List (String × Val))
    (ht : rec.getField "table" = .ok (.obj tfs))
    (hs : rec.getField "server" = .ok (.obj sfs))
    (hstats : statsWF db.stats = true) :
    ∃ stPl, statsValueFor db rec = .ok stPl ∧
      fieldsSub stPl ["query_engine", "storage_engine"] = true := by
  cases htid : objFind tfs "id" with
  | none =>
      refine ⟨.obj [], ?_, by decide⟩
      have htiderr : Val.getField (.obj tfs) "id" = .error .nonExistence := by
        simp [Val.getField, htid]
      simp [statsValueFor, ht, htiderr, ok_bind, error_bind, defaultVal,
        pluckTop, pluckFieldsPure, objFind]
  | some tid =>
      have ht' : Val.getField (.obj tfs) "id" = .ok tid := by simp [Val.getField, htid]
      cases hsid : objFind sfs "id" with
      | none =>
          refine ⟨.obj [], ?_, by decide⟩
          have hsiderr : Val.getField (.obj sfs) "id" = .error .nonExistence := by
            simp [Val.getField, hsid]
          simp [statsValueFor, ht, hs, ht', hsiderr, ok_bind, error_map,
            defaultVal, pluckTop, pluckFieldsPure, objFind]
      | some sid =>
          have hs' : Val.getField (.obj sfs) "id" = .ok sid := by simp [Val.getField, hsid]
          cases hfind : tableFind db.stats (.arr [.str "table_server", tid, sid]) with
          | none =>
              exact ⟨.obj [], statsValueFor_empty db rec _ _ tid sid ht ht' hs hs' hfind,
                by decide⟩
          | some strow =>
              have hmem : strow ∈ db.stats := tableFind_mem _ _ _ hfind
              have hwf : statsRowWF strow = true := (List.all_eq_true.mp hstats) strow hmem
              cases strow with
              | obj stfs =>
                  exact ⟨.obj (pluckFieldsPure ["query_engine", "storage_engine"] stfs),
                    statsValueFor_found db rec _ _ tid sid stfs ht ht' hs hs' hfind,
                    pluckTop_fieldsSub _ (.obj stfs) _ rfl⟩
              | null => cases hwf
              | bool b => cases hwf
              | str s => cases hwf
              | num x => cases hwf
              | arr xs => cases hwf

/-- mapE distributes over list append. -/
theorem mapE_append {α β : Type} (f : α → Except RErr β) (as bs : List α)
    (ra rb : List β) (ha : mapE f as = .ok ra) (hb : mapE f bs = .ok rb) :
    mapE f (as ++ bs) = .ok (ra ++ rb) := by
  induction as generalizing ra with
  | nil => cases ha; simpa using hb
  | cons x xs ih =>
      rw [mapE_cons] at ha
      cases hfx : f x with
      | error e => rw [hfx] at ha; cases ha
      | ok y =>
          rw [hfx] at ha
          cases hrest : mapE f xs with
          | error e => rw [hrest] at ha; cases ha
          | ok ys =>
              rw [hrest] at ha
              cases ha
              rw [List.cons_append, mapE_cons, hfx, ih ys hrest]
              rfl

/-- flatMapE distributes over list append. -/
theorem flatMapE_append {α β : Type} (f : α → Except RErr (List β)) (as bs : List α)
    (ra rb : List β) (ha : flatMapE f as = .ok ra) (hb : flatMapE f bs = .ok rb) :
    flatMapE f (as ++ bs) = .ok (ra ++ rb) := by
  induction as generalizing ra with
  | nil => cases ha; simpa using hb
  | cons x xs ih =>
      rw [flatMapE_cons] at ha
      cases hfx : f x with
      | error e => rw [hfx] at ha; cases ha
      | ok ys =>
          rw [hfx] at ha
          cases hrest : flatMapE f xs with
          | error e => rw [hrest] at ha; cases ha
          | ok rest =>
              rw [hrest] at ha
              cases ha
              rw [List.cons_append, flatMapE_cons, hfx, ih rest hrest,
                List.append_assoc]
              rfl

/-- mapE over a mapped list is mapE of the composite. -/
theorem mapE_map {α β γ : Type} (f : β → Except RErr γ) (g : α → β) (l : List α) :
    mapE f (l.map g) = mapE (fun a => f (g a)) l := by
  induction l with
  | nil => rfl
  | cons x xs ih => rw [List.map_cons, mapE_cons, mapE_cons, ih]

/-- flatMapE over a mapped list is flatMapE of the composite. -/
theorem flatMapE_map {α β γ : Type} (f : β → Except RErr (List γ)) (g : α → β)
    (l : List α) :
    flatMapE f (l.map g) = flatMapE (fun a => f (g a)) l := by
  induction l with
  | nil => rfl
  | cons x xs ih => rw [List.map_cons, flatMapE_cons, flatMapE_cons, ih]

/-- mapE over a flat-mapped list computes the flat map of pointwise results. -/
theorem mapE_flatMap {α β γ : Type} (f : β → Except RErr γ) (g : α → List β)
    (gg : α → List γ) (l : List α)
    (h : ∀ a ∈ l, mapE f (g a) = .ok (gg a)) :
    mapE f (l.flatMap g) = .ok (l.flatMap gg) := by
  induction l with
  | nil => rfl
  | cons x xs ih =>
      rw [List.flatMap_cons, List.flatMap_cons]
      exact mapE_append f (g x) (xs.flatMap g) (gg x) (xs.flatMap gg)
        (h x (List.mem_cons_self x xs))
        (ih (fun a ha => h a (List.mem_cons_of_mem x ha)))

/-- flatMapE over a flat-mapped list computes the flat map of pointwise
results. -/
theorem flatMapE_flatMap {α β γ : Type} (f : β → Except RErr (List γ))
    (g : α → List β) (gg : α → List γ) (l : List α)
    (h : ∀ a ∈ l, flatMapE f (g a) = .ok (gg a)) :
    flatMapE f (l.flatMap g) = .ok (l.flatMap gg) := by
  induction l with
  | nil => rfl
  | cons x xs ih =>
      rw [List.flatMap_cons, List.flatMap_cons]
      exact flatMapE_append f (g x) (xs.flatMap g) (gg x) (xs.flatMap gg)
        (h x (List.mem_cons_self x xs))
        (ih (fun a ha => h a (List.mem_cons_of_mem x ha)))

/-- On a well-formed shard, `pluck('replicas')` keeps exactly the replica
array. -/
theorem shardPluck_wf (sh : Val) (h : shardWF sh = true) :
    pluckTop ["replicas"] sh = .ok (.obj [("replicas", .arr (shardReplicas sh))]) := by
  cases sh with
  | obj fs =>
      cases hrep : objFind fs "replicas" with
      | none => simp [shardWF, hrep] at h
      | some v =>
          cases v with
          | arr reps => simp [pluckTop, pluckFieldsPure, hrep, shardReplicas]
          | null => simp [shardWF, hrep] at h
          | bool b => simp [shardWF, hrep] at h
          | str s => simp [shardWF, hrep] at h
          | num x => simp [shardWF, hrep] at h
          | obj gs => simp [shardWF, hrep] at h
  | null => cases h
  | bool b => cases h
  | str s => cases h
  | num x => cases h
  | arr xs => cases h

/-- Every replica of a well-formed shard is an object. -/
theorem shardWF_replicas (sh : Val) (h : shardWF sh = true) :
    ∀ rep ∈ shardReplicas sh, isObjB rep = true := by
  cases sh with
  | obj fs =>
      cases hrep : objFind fs "replicas" with
      | none => simp [shardWF, hrep] at h
      | some v =>
          cases v with
          | arr reps =>
              simp only [shardWF, hrep] at h
              intro rep hmem
              simp only [shardReplicas, hrep] at hmem
              exact (List.all_eq_true.mp h) rep hmem
          | null => simp [shardWF, hrep] at h
          | bool b => simp [shardWF, hrep] at h
          | str s => simp [shardWF, hrep] at h
          | num x => simp [shardWF, hrep] at h
          | obj gs => simp [shardWF, hrep] at h
  | null => cases h
  | bool b => cases h
  | str s => cases h
  | num x => cases h
  | arr xs => cases h

/-- On an object replica, `pluck('server', 'state')` computes
`replicaPluck`. -/
theorem replicaPluck_wf (rep : Val) (h : isObjB rep = true) :
    pluckTop ["server", "state"] rep = .ok (replicaPluck rep) := by
  cases rep with
  | obj fs => rfl
  | null => cases h
  | bool b => cases h
  | str s => cases h
  | num x => cases h
  | arr xs => cases h

/-- Every shard of a well-formed table_status row is well-formed. -/
theorem statusRowWF_shards (row : Val) (h : statusRowWF row = true) :
    ∀ sh ∈ rowShards row, shardWF sh = true := by
  cases row with
  | obj fs =>
      cases hsh : objFind fs "shards" with
      | none => simp [statusRowWF, hsh] at h
      | some v =>
          cases v with
          | arr shs =>
              simp only [statusRowWF, hsh, Bool.and_eq_true] at h
              intro sh hmem
              simp only [rowShards, hsh] at hmem
              exact (List.all_eq_true.mp h.2) sh hmem
          | null => simp [statusRowWF, hsh] at h
          | bool b => simp [statusRowWF, hsh] at h
          | str s => simp [statusRowWF, hsh] at h
          | num x => simp [statusRowWF, hsh] at h
          | obj gs => simp [statusRowWF, hsh] at h
  | null => cases h
  | bool b => cases h
  | str s => cases h
  | num x => cases h
  | arr xs => cases h

/-- On a well-formed table_status row, the opening
`pluck('id', {'shards': ['replicas']})` keeps the id and the shard list with
each shard restricted to its replica array. -/
theorem pluckStatusRow_wf (row : Val) (h : statusRowWF row = true) :
    pluckStatusRow row = .ok (.obj [("id", rowIdD row),
      ("shards", .arr ((rowShards row).map (fun sh =>
        Val.obj [("replicas", .arr (shardReplicas sh))])))]) := by
  cases row with
  | obj fs =>
      cases hid : objFind fs "id" with
      | none => simp [statusRowWF, hid] at h
      | some idv =>
          cases hsh : objFind fs "shards" with
          | none => simp [statusRowWF, hsh] at h
          | some v =>
              cases v with
              | arr shs =>
                  have hall : ∀ sh ∈ shs, shardWF sh = true := by
                    have := statusRowWF_shards (.obj fs) h
                    simpa [rowShards, hsh] using this
                  have hmap : mapE (pluckTop ["replicas"]) shs =
                      .ok (shs.map (fun sh =>
                        Val.obj [("replicas", .arr (shardReplicas sh))])) :=
                    mapE_ok_of_forall _ _ shs (fun sh hs => shardPluck_wf sh (hall sh hs))
                  simp [pluckStatusRow, hid, hsh, hmap, ok_bind, rowIdD, rowShards]
              | null => simp [statusRowWF, hsh] at h
              | bool b => simp [statusRowWF, hsh] at h
              | str s => simp [statusRowWF, hsh] at h
              | num x => simp [statusRowWF, hsh] at h
              | obj gs => simp [statusRowWF, hsh] at h
  | null => cases h
  | bool b => cases h
  | str s => cases h
  | num x => cases h
  | arr xs => cases h

/-- The flattening prefix of `query_replicas_with_stats`, on well-formed
table statuses, computes exactly one flat record per (table, shard, replica),
in order: the pure characterization `flatRow`. -/
theorem flatten_eq (rows : List Val) (h : statusesWF rows = true) :
    flattenTableStatuses rows = .ok (rows.flatMap flatRow) := by
  have hwf : ∀ row ∈ rows, statusRowWF row = true :=
    fun row hr => (List.all_eq_true.mp h) row hr
  have h1 : mapE pluckStatusRow rows = .ok (rows.map (fun row =>
      Val.obj [("id", rowIdD row), ("shards", Val.arr ((rowShards row).map (fun sh =>
        Val.obj [("replicas", Val.arr (shardReplicas sh))])))])) :=
    mapE_ok_of_forall _ _ rows (fun row hr => pluckStatusRow_wf row (hwf row hr))
  have h2 : mapE (fun row => do
        let idv ← row.getField "id"
        mergeField row "table" idv)
      (rows.map (fun row =>
        Val.obj [("id", rowIdD row), ("shards", Val.arr ((rowShards row).map (fun sh =>
          Val.obj [("replicas", Val.arr (shardReplicas sh))])))])) =
      .ok (rows.map (fun row =>
        Val.obj [("id", rowIdD row), ("shards", Val.arr ((rowShards row).map (fun sh =>
          Val.obj [("replicas", Val.arr (shardReplicas sh))]))),
          ("table", rowIdD row)])) := by
    rw [mapE_map]
    exact mapE_ok_of_forall _ _ rows (fun row hr => rfl)
  have h3 : mapE (withoutField "id")
      (rows.map (fun row =>
        Val.obj [("id", rowIdD row), ("shards", Val.arr ((rowShards row).map (fun sh =>
          Val.obj [("replicas", Val.arr (shardReplicas sh))]))),
          ("table", rowIdD row)])) =
      .ok (rows.map (fun row =>
        Val.obj [("shards", Val.arr ((rowShards row).map (fun sh =>
          Val.obj [("replicas", Val.arr (shardReplicas sh))]))),
          ("table", rowIdD row)])) := by
    rw [mapE_map]
    exact mapE_ok_of_forall _ _ rows (fun row hr => rfl)
  have h4 : flatMapE shardExpand
      (rows.map (fun row =>
        Val.obj [("shards", Val.arr ((rowShards row).map (fun sh =>
          Val.obj [("replicas", Val.arr (shardReplicas sh))]))),
          ("table", rowIdD row)])) =
      .ok (rows.flatMap (fun row =>
        (rowShards row).map (fun sh =>
          Val.obj [("shards", Val.arr ((rowShards row).map (fun sh0 =>
            Val.obj [("replicas", Val.arr (shardReplicas sh0))]))),
            ("table", rowIdD row),
            ("replicas", Val.arr (shardReplicas sh))]))) := by
    rw [flatMapE_map]
    apply flatMapE_ok_of_forall
    intro row hr
    have hmap : mapE (fun shard => do
          let pl ← pluckTop ["replicas"] shard
          mergeObj (Val.obj [("shards", Val.arr ((rowShards row).map (fun sh0 =>
            Val.obj [("replicas", Val.arr (shardReplicas sh0))]))),
            ("table", rowIdD row)]) pl)
        ((rowShards row).map (fun sh =>
          Val.obj [("replicas", Val.arr (shardReplicas sh))])) =
        .ok ((rowShards row).map (fun sh =>
          Val.obj [("shards", Val.arr ((rowShards row).map (fun sh0 =>
            Val.obj [("replicas", Val.arr (shardReplicas sh0))]))),
            ("table", rowIdD row),
            ("replicas", Val.arr (shardReplicas sh))])) := by
      rw [mapE_map]
      exact mapE_ok_of_forall _ _ _ (fun sh hs => rfl)
    exact hmap
  have h5 : mapE (withoutField "shards")
      (rows.flatMap (fun row =>
        (rowShards row).map (fun sh =>
          Val.obj [("shards", Val.arr ((rowShards row).map (fun sh0 =>
            Val.obj [("replicas", Val.arr (shardReplicas sh0))]))),
            ("table", rowIdD row),
            ("replicas", Val.arr (shardReplicas sh))]))) =
      .ok (rows.flatMap (fun row =>
        (rowShards row).map (fun sh =>
          Val.obj [("table", rowIdD row),
            ("replicas", Val.arr (shardReplicas sh))]))) := by
    apply mapE_flatMap
    intro row hr
    rw [mapE_map]
    exact mapE_ok_of_forall _ _ _ (fun sh hs => rfl)
  have h6 : flatMapE replicaExpand
      (rows.flatMap (fun row =>
        (rowShards row).map (fun sh =>
          Val.obj [("table", rowIdD row),
            ("replicas", Val.arr (shardReplicas sh))]))) =
      .ok (rows.flatMap (fun row =>
        (rowShards row).flatMap (fun sh =>
          (shardReplicas sh).map (fun rep =>
            Val.obj [("table", rowIdD row),
              ("replicas", Val.arr (shardReplicas sh)),
              ("replica", replicaPluck rep)])))) := by
    apply flatMapE_flatMap
    intro row hr
    rw [flatMapE_map]
    apply flatMapE_ok_of_forall
    intro sh hs
    have hreps : ∀ rep ∈ shardReplicas sh, isObjB rep = true :=
      shardWF_replicas sh (statusRowWF_shards row (hwf row hr) sh hs)
    have hmap : mapE (fun rep => do
          let pl ← pluckTop ["server", "state"] rep
          mergeField (Val.obj [("table", rowIdD row),
            ("replicas", Val.arr (shardReplicas sh))]) "replica" pl)
        (shardReplicas sh) =
        .ok ((shardReplicas sh).map (fun rep =>
          Val.obj [("table", rowIdD row),
            ("replicas", Val.arr (shardReplicas sh)),
            ("replica", replicaPluck rep)])) := by
      apply mapE_ok_of_forall
      intro rep hrp
      rw [replicaPluck_wf rep (hreps rep hrp), ok_bind]
      rfl
    exact hmap
  simp only [flattenTableStatuses]
  rw [h1, ok_bind, h2, ok_bind, h3, ok_bind, h4, ok_bind, h5, ok_bind, h6, ok_bind]
  apply mapE_flatMap
  intro row hr
  simp only [flatRow]
  apply mapE_flatMap
  intro sh hs
  rw [mapE_map]
  exact mapE_ok_of_forall _ _ _ (fun rep hrp => rfl)

/-- A row whose stored id equals the requested key satisfies `rowIdIs`. -/
theorem rowIdIs_of_getField (k : Val) (r : Val) (h : r.getField "id" = .ok k) :
    rowIdIs k r = true := by
  simp [rowIdIs, h, Val.beq_refl]

/-- A row satisfying `rowIdIs` stores exactly the requested key as its id. -/
theorem getField_of_rowIdIs (k : Val) (r : Val) (h : rowIdIs k r = true) :
    r.getField "id" = .ok k := by
  unfold rowIdIs at h
  cases hg : r.getField "id" with
  | ok a => rw [hg] at h; rw [Val.eq_of_beq a k h]
  | error e => rw [hg] at h; cases h

/-- No row matches a key that no row stores. -/
theorem tableFind_eq_none (l : List Val) (k : Val)
    (h : ∀ r ∈ l, rowIdIs k r = false) : tableFind l k = none :=
  List.find?_eq_none.mpr (fun x hx => by rw [h x hx]; exact Bool.false_ne_true)

/-- Under primary-key uniqueness, the lookup finds the one row that stores
the key. -/
theorem tableFind_unique (l : List Val) (k : Val) (r : Val)
    (hd : idDistinct l = true) (hmem : r ∈ l) (hr : rowIdIs k r = true) :
    tableFind l k = some r := by
  induction l with
  | nil => cases hmem
  | cons y ys ih =>
      simp only [idDistinct, Bool.and_eq_true, List.all_eq_true] at hd
      rcases List.mem_cons.mp hmem with hry | hrys
      · subst hry
        simp [tableFind, List.find?_cons, hr]
      · have hyk : rowIdIs k y = false := by
          cases hyk : rowIdIs k y
          · rfl
          · exfalso
            have hidy := getField_of_rowIdIs k y hyk
            have hidr := getField_of_rowIdIs k r hr
            have : sameId y r = true := by
              simp [sameId, hidy, hidr, Val.beq_refl]
            have := hd.1 r hrys
            rw [this] at *
            simp_all
        have := ih hd.2 hrys
        simpa [tableFind, List.find?_cons, hyk] using this

/-- A row at its own id: `sameId` is reflexive on rows with an id field. -/
theorem sameId_self (x : Val) (i : Val) (h : x.getField "id" = .ok i) :
    sameId x x = true := by
  simp [sameId, h, Val.beq_refl]

/-- Under primary-key uniqueness, a stored row occurs exactly once. -/
theorem count_eq_one_of_idDistinct (l : List Val) (x : Val) (i : Val)
    (hd : idDistinct l = true) (hmem : x ∈ l) (hid : x.getField "id" = .ok i) :
    l.count x = 1 := by
  induction l with
  | nil => cases hmem
  | cons y ys ih =>
      simp only [idDistinct, Bool.and_eq_true, List.all_eq_true] at hd
      rcases List.mem_cons.mp hmem with hxy | hxys
      · subst hxy
        have hnot : x ∉ ys := by
          intro hmem'
          have := hd.1 x hmem'
          rw [sameId_self x i hid] at this
          cases this
        simp [List.count_cons, List.count_eq_zero.mpr hnot]
      · have hyx : y ≠ x := by
          intro he
          have hall := hd.1 x hxys
          rw [he, sameId_self x i hid] at hall
          cases hall
        have hxy : x ≠ y := fun h => hyx h.symm
        have := ih hd.2 hxys
        simp [List.count_cons, this, hyx, hxy]


/-- Stepping rule for `filterRows`: a row on which the predicate raises a
non-existence error is skipped. -/
theorem filterRows_cons_skip (pred : Val → Except RErr Val) (x : Val) (xs : List Val)
    (hv : pred x = .error .nonExistence) :
    filterRows pred (x :: xs) = filterRows pred xs := by
  simp [filterRows, hv]

/-- Stepping rule for `filterRows`: a row on which the predicate returns
`false` (or `null`) is dropped. -/
theorem filterRows_cons_drop (pred : Val → Except RErr Val) (x : Val) (xs : List Val)
    (v : Val) (hv : pred x = .ok v) (hdrop : v = .bool false ∨ v = .null) :
    filterRows pred (x :: xs) = filterRows pred xs := by
  simp [filterRows, hv, hdrop]

/-- Stepping rule for `filterRows`: a row on which the predicate returns a
value other than `false` and `null` is kept. -/
theorem filterRows_cons_keep (pred : Val → Except RErr Val) (x : Val) (xs : List Val)
    (v : Val) (hv : pred x = .ok v) (hkeep : ¬(v = .bool false ∨ v = .null)) :
    filterRows pred (x :: xs) =
      (filterRows pred xs).bind (fun rest => .ok (x :: rest)) := by
  simp only [filterRows, hv, if_neg hkeep]
  rfl

/-- ReQL `filter` with an `id[0] == tag` predicate, on a well-formed stats
table, succeeds and computes a pure filter on the id's first element: rows
whose id array is empty raise only a non-existence error, which `filter`
silently skips. -/
theorem filterRows_stats_tag (tag : String) (pred : Val → Except RErr Val)
    (hpred : ∀ row, pred row = do
        let idv ← row.getField "id"
        let first ← idv.nth 0
        pure (.bool (Val.beq first (.str tag))))
    (l : List Val) (hwf : statsWF l = true) :
    filterRows pred l = .ok (l.filter (fun x => idHead x == some tag)) := by
  induction l with
  | nil => rfl
  | cons row rows ih =>
      have hwf2 : statsRowWF row = true ∧ statsWF rows = true := by
        simpa [statsWF, Bool.and_eq_true] using hwf
      have hrest := ih hwf2.2
      cases row with
      | obj fs =>
          cases hid : objFind fs "id" with
          | none => simp [statsRowWF, hid] at hwf2
          | some idv =>
              cases idv with
              | arr xs =>
                  cases xs with
                  | nil =>
                      have hp : pred (Val.obj fs) = .error .nonExistence := by
                        rw [hpred]
                        simp [Val.getField, hid, ok_bind, error_bind, ok_map,
                          error_map, Val.nth]
                      have hhead : idHead (Val.obj fs) = none := by
                        simp [idHead, Val.getField, hid]
                      rw [filterRows_cons_skip pred _ rows hp, hrest]
                      simp [List.filter_cons, hhead]
                  | cons v vs =>
                      have hstr : isStrB v = true := by
                        have := hwf2.1
                        simp only [statsRowWF, hid, isStrArrB, List.all_cons,
                          Bool.and_eq_true] at this
                        exact this.1
                      cases v with
                      | str s =>
                          have hp : pred (Val.obj fs) = .ok (.bool (s == tag)) := by
                            rw [hpred]
                            simp [Val.getField, hid, ok_bind, error_bind, ok_map,
                              error_map, Val.nth, Val.beq]
                          have hhead : idHead (Val.obj fs) = some s := by
                            simp [idHead, Val.getField, hid]
                          cases hst : s == tag
                          · have hne : s ≠ tag := beq_eq_false_iff_ne.mp hst
                            rw [hst] at hp
                            rw [filterRows_cons_drop pred _ rows _ hp (Or.inl rfl),
                              hrest]
                            simp [List.filter_cons, hhead, hne]
                          · have heq : s = tag := beq_iff_eq.mp hst
                            rw [hst] at hp
                            rw [filterRows_cons_keep pred _ rows _ hp (by simp),
                              hrest]
                            simp [List.filter_cons, hhead, heq, Except.bind]
                      | null => cases hstr
                      | bool b => cases hstr
                      | num x => cases hstr
                      | arr ys => cases hstr
                      | obj gs => cases hstr
              | null => simp [statsRowWF, hid, isStrArrB] at hwf2
              | bool b => simp [statsRowWF, hid, isStrArrB] at hwf2
              | str s => simp [statsRowWF, hid, isStrArrB] at hwf2
              | num x => simp [statsRowWF, hid, isStrArrB] at hwf2
              | obj gs => simp [statsRowWF, hid, isStrArrB] at hwf2
      | null => simp [statsRowWF] at hwf2
      | bool b => simp [statsRowWF] at hwf2
      | str s => simp [statsRowWF] at hwf2
      | num x => simp [statsRowWF] at hwf2
      | arr xs => simp [statsRowWF] at hwf2

/-- Characterization of `eqJoin` when no key evaluation raises a type error:
it succeeds, producing for each left row whose key exists, is non-null and
matches a right row, the pair of the two rows, and dropping every other left
row. -/
theorem eqJoin_filterMap (key : Val → Except RErr Val) (right : List Val)
    (l : List Val) (h : ∀ x ∈ l, key x ≠ .error .typeError) :
    eqJoin key right l = .ok (l.filterMap (fun x =>
      match key x with
      | .ok k => if k = .null then none else (tableFind right k).map (fun r => (x, r))
      | .error _ => none)) := by
  induction l with
  | nil => rfl
  | cons x xs ih =>
      have hx := h x (List.mem_cons_self x xs)
      have hrest := ih (fun a ha => h a (List.mem_cons_of_mem x ha))
      cases hk : key x with
      | error e =>
          cases e with
          | nonExistence => simp [eqJoin, hk, hrest, List.filterMap_cons]
          | typeError => exact absurd hk hx
      | ok k =>
          cases k with
          | null => simp [eqJoin, hk, hrest, List.filterMap_cons]
          | bool b =>
              cases hfind : tableFind right (.bool b) with
              | some r => simp [eqJoin, hk, hfind, hrest, List.filterMap_cons, Except.bind]
              | none => simp [eqJoin, hk, hfind, hrest, List.filterMap_cons]
          | str s =>
              cases hfind : tableFind right (.str s) with
              | some r => simp [eqJoin, hk, hfind, hrest, List.filterMap_cons, Except.bind]
              | none => simp [eqJoin, hk, hfind, hrest, List.filterMap_cons]
          | num n =>
              cases hfind : tableFind right (.num n) with
              | some r => simp [eqJoin, hk, hfind, hrest, List.filterMap_cons, Except.bind]
              | none => simp [eqJoin, hk, hfind, hrest, List.filterMap_cons]
          | arr ys =>
              cases hfind : tableFind right (.arr ys) with
              | some r => simp [eqJoin, hk, hfind, hrest, List.filterMap_cons, Except.bind]
              | none => simp [eqJoin, hk, hfind, hrest, List.filterMap_cons]
          | obj gs =>
              cases hfind : tableFind right (.obj gs) with
              | some r => simp [eqJoin, hk, hfind, hrest, List.filterMap_cons, Except.bind]
              | none => simp [eqJoin, hk, hfind, hrest, List.filterMap_cons]

/-- No joined pair originates from a left row absent from the list. -/
theorem join_swap_filter_nil (xs : List Val) (target : Val)
    (jf : Val → Option (Val × Val))
    (hfst : ∀ x p, jf x = some p → p.1 = x)
    (hnot : target ∉ xs) :
    ((xs.filterMap jf).map (fun p => (p.2, p.1))).filter
      (fun p => decide (p.2 = target)) = [] := by
  induction xs with
  | nil => rfl
  | cons x xs ih =>
      have hx : x ≠ target := fun he => hnot (he ▸ List.mem_cons_self x xs)
      have hrest := ih (fun hm => hnot (List.mem_cons_of_mem x hm))
      cases hjx : jf x with
      | none => simpa [List.filterMap_cons, hjx] using hrest
      | some p =>
          have hpx : p.1 = x := hfst x p hjx
          have hne : ¬(p.1 = target) := by rw [hpx]; exact hx
          simpa [List.filterMap_cons, hjx, List.filter_cons, hne] using hrest

/-- In a joined list built from a left list containing the target row exactly
once, the pairs whose left component is the target are exactly the join
result of the target itself. -/
theorem join_swap_filter (l : List Val) (target : Val)
    (jf : Val → Option (Val × Val))
    (hfst : ∀ x p, jf x = some p → p.1 = x)
    (hcount : l.count target = 1) :
    ((l.filterMap jf).map (fun p => (p.2, p.1))).filter
      (fun p => decide (p.2 = target)) =
      ((jf target).map (fun p => (p.2, p.1))).toList := by
  induction l with
  | nil => cases hcount
  | cons x xs ih =>
      by_cases hx : x = target
      · subst hx
        have hzero : xs.count x = 0 := by
          simpa [List.count_cons] using hcount
        have hnot : x ∉ xs := List.count_eq_zero.mp hzero
        cases hjx : jf x with
        | none =>
            simp [List.filterMap_cons, hjx,
              join_swap_filter_nil xs x jf hfst hnot]
        | some p =>
            have hpx : p.1 = x := hfst x p hjx
            simp [List.filterMap_cons, hjx, List.filter_cons, hpx,
              join_swap_filter_nil xs x jf hfst hnot]
      · have hxq : ¬(target = x) := fun he => hx he.symm
        have hcount2 : xs.count target = 1 := by
          simpa [List.count_cons, hxq] using hcount
        have hrest := ih hcount2
        cases hjx : jf x with
        | none => simpa [List.filterMap_cons, hjx] using hrest
        | some p =>
            have hpx : p.1 = x := hfst x p hjx
            have hne : ¬(p.1 = target) := by rw [hpx]; exact hx
            simpa [List.filterMap_cons, hjx, List.filter_cons, hne] using hrest

/-- No well-formed stats row is keyed by an array containing `null`: stats
identifiers are arrays of strings, so the `['table_server', tableId, null]`
key produced for a disconnected server can never match. -/
theorem tableFind_null_component (l : List Val) (hwf : statsWF l = true) (tid : Val) :
    tableFind l (.arr [.str "table_server", tid, .null]) = none := by
  apply tableFind_eq_none
  intro r hr
  have hwfr : statsRowWF r = true := (List.all_eq_true.mp hwf) r hr
  cases hcheck : rowIdIs (.arr [.str "table_server", tid, .null]) r
  · rfl
  · exfalso
    have hid := getField_of_rowIdIs _ r hcheck
    cases r with
    | obj fs =>
        have hobj : objFind fs "id" = some (.arr [.str "table_server", tid, .null]) := by
          cases hfind : objFind fs "id" with
          | none => simp [Val.getField, hfind] at hid
          | some v =>
              simp only [Val.getField, hfind] at hid
              cases hid
              rfl
        simp [statsRowWF, hobj, isStrArrB, isStrB] at hwfr
    | null => cases hid
    | bool b => cases hid
    | str s => cases hid
    | num x => cases hid
    | arr xs => cases hid

/-- Master lemma for the enrichment suffix on one flattened record
`{'table': tid, 'replica': rp}` whose table has a configuration row: the
enrichment succeeds, the yielded components are exactly the three plucked
values plus the untouched replica, and the server and stats components are
computed by `serverValueFor` and `statsValueFor`. -/
theorem enrichReplica_flat (db : DB) (tid : Val) (rpfs cfgfs : List (String × Val))
    (hfind : tableFind db.table_config tid = some (.obj cfgfs))
    (hscfg : configRowsWF db.server_config = true)
    (hstats : statsWF db.stats = true) :
    ∃ sPl stPl erow,
      enrichReplica db (.obj [("table", tid), ("replica", .obj rpfs)]) = .ok erow ∧
      serverValueFor db (.obj [("table", tid), ("replica", .obj rpfs)]) = .ok sPl ∧
      statsValueFor db (.obj [("table", .obj (pluckFieldsPure ["id", "db", "name"] cfgfs)),
        ("server", sPl)]) = .ok stPl ∧
      erow.getField "table" = .ok (.obj (pluckFieldsPure ["id", "db", "name"] cfgfs)) ∧
      erow.getField "server" = .ok sPl ∧
      erow.getField "replica" = .ok (.obj rpfs) ∧
      erow.getField "stats" = .ok stPl ∧
      fieldsSub sPl ["id", "name", "tags"] = true ∧
      fieldsSub stPl ["query_engine", "storage_engine"] = true ∧
      tupleOfRow erow =
        .ok (.obj (pluckFieldsPure ["id", "db", "name"] cfgfs), sPl, .obj rpfs, stPl) := by
  obtain ⟨gs1, h1, h1t, h1o⟩ :=
    enrichTable_found db [("table", tid), ("replica", .obj rpfs)] cfgfs tid rfl hfind
  have h1rep : (Val.obj gs1).getField "replica" = .ok (.obj rpfs) := by
    rw [h1o "replica" (by decide)]; rfl
  obtain ⟨sPl, hsv1, hsub⟩ := serverValueFor_ok db (.obj gs1) rpfs h1rep hscfg
  have hsv0 : serverValueFor db (.obj [("table", tid), ("replica", .obj rpfs)]) =
      .ok sPl := by
    rw [serverValueFor_congr db _ (.obj gs1) (by rw [h1rep]; rfl)]
    exact hsv1
  obtain ⟨gs2, h2, h2s, h2o⟩ := mergeField_spec gs1 "server" sPl
  have henr2 : enrichServer db (.obj gs1) = .ok (.obj gs2) := by
    simp [enrichServer, hsv1, ok_bind, h2]
  have h2t : (Val.obj gs2).getField "table" =
      .ok (.obj (pluckFieldsPure ["id", "db", "name"] cfgfs)) := by
    rw [h2o "table" (by decide), h1t]
  have h2rep : (Val.obj gs2).getField "replica" = .ok (.obj rpfs) := by
    rw [h2o "replica" (by decide), h1rep]
  have hsPlObj : isObjB sPl = true := isObjB_of_fieldsSub sPl _ hsub
  cases sPl with
  | obj spfs =>
      obtain ⟨stPl, hstv2, hstsub⟩ :=
        statsValueFor_ok db (.obj gs2) (pluckFieldsPure ["id", "db", "name"] cfgfs)
          spfs h2t h2s hstats
      have hstv0 : statsValueFor db
          (.obj [("table", .obj (pluckFieldsPure ["id", "db", "name"] cfgfs)),
            ("server", .obj spfs)]) = .ok stPl := by
        rw [statsValueFor_congr db _ (.obj gs2) (by rw [h2t]; rfl) (by rw [h2s]; rfl)]
        exact hstv2
      obtain ⟨gs3, h3, h3st, h3o⟩ := mergeField_spec gs2 "stats" stPl
      have henr3 : enrichStats db (.obj gs2) = .ok (.obj gs3) := by
        simp [enrichStats, hstv2, ok_bind, h3]
      have henrich : enrichReplica db (.obj [("table", tid), ("replica", .obj rpfs)]) =
          .ok (.obj gs3) := by
        simp [enrichReplica, h1, ok_bind, henr2, henr3]
      have h3t : (Val.obj gs3).getField "table" =
          .ok (.obj (pluckFieldsPure ["id", "db", "name"] cfgfs)) := by
        rw [h3o "table" (by decide), h2t]
      have h3s : (Val.obj gs3).getField "server" = .ok (.obj spfs) := by
        rw [h3o "server" (by decide), h2s]
      have h3rep : (Val.obj gs3).getField "replica" = .ok (.obj rpfs) := by
        rw [h3o "replica" (by decide), h2rep]
      refine ⟨.obj spfs, stPl, .obj gs3, henrich, hsv0, hstv0, h3t, h3s, h3rep,
        h3st, hsub, hstsub, ?_⟩
      simp [tupleOfRow, h3t, h3s, h3rep, h3st, ok_bind]
  | null => cases hsPlObj
  | bool b => cases hsPlObj
  | str s => cases hsPlObj
  | num x => cases hsPlObj
  | arr xs => cases hsPlObj

/-- Every record flattened from a well-formed table_status row is the
`{'table': id, 'replica': pluck}` record of one of its replicas. -/
theorem flatRow_mem_shape (row rec : Val) (hwfrow : statusRowWF row = true)
    (hrec : rec ∈ flatRow row) :
    ∃ repfs : List (String × Val),
      rec = .obj [("table", rowIdD row),
        ("replica", .obj (pluckFieldsPure ["server", "state"] repfs))] := by
  simp only [flatRow] at hrec
  obtain ⟨sh, hsh, hrec2⟩ := List.mem_flatMap.mp hrec
  obtain ⟨rep, hrep, hform⟩ := List.mem_map.mp hrec2
  have hrepobj : isObjB rep = true :=
    shardWF_replicas sh (statusRowWF_shards row hwfrow sh hsh) rep hrep
  cases rep with
  | obj repfs => exact ⟨repfs, hform.symm⟩
  | null => cases hrepobj
  | bool b => cases hrepobj
  | str s => cases hrepobj
  | num x => cases hrepobj
  | arr xs => cases hrepobj

/-- Every flattened record's `table` field is the id of its originating
table_status row. -/
theorem flatRow_table (row rec : Val) (hrec : rec ∈ flatRow row) :
    rec.getField "table" = .ok (rowIdD row) := by
  simp only [flatRow] at hrec
  obtain ⟨sh, hsh, hrec2⟩ := List.mem_flatMap.mp hrec
  obtain ⟨rep, hrep, hform⟩ := List.mem_map.mp hrec2
  rw [← hform]
  rfl

/-- Length of a flat map of maps: the sum of the inner lengths. -/
theorem length_flatMap_map {α β γ : Type} (l : List α) (g : α → List β)
    (f2 : α → β → γ) :
    (l.flatMap (fun a => (g a).map (f2 a))).length =
      (l.map (fun a => (g a).length)).sum := by
  induction l with
  | nil => rfl
  | cons x xs ih => simp [List.flatMap_cons, ih]

/-- The number of records flattened from one table_status row is the sum of
its shards' replica counts. -/
theorem flatRow_length (row : Val) :
    (flatRow row).length =
      ((rowShards row).map (fun sh => (shardReplicas sh).length)).sum := by
  simpa [flatRow] using
    length_flatMap_map (rowShards row) shardReplicas
      (fun _ rep => flatRecord (rowIdD row) rep)

/-- The total number of flattened records is the double sum of replica
counts over tables and shards. -/
theorem flat_total_length (rows : List Val) :
    (rows.flatMap flatRow).length =
      (rows.map (fun row =>
        ((rowShards row).map (fun sh => (shardReplicas sh).length)).sum)).sum := by
  induction rows with
  | nil => rfl
  | cons x xs ih => simp [List.flatMap_cons, flatRow_length, ih]

/-- On a well-formed stats row, the `id[1]` join key raises at worst a
non-existence error (skipped by `eq_join`), never a type error. -/
theorem serverStatsKey_no_typeError (x : Val) (h : statsRowWF x = true) :
    serverStatsKey x ≠ .error .typeError := by
  cases x with
  | obj fs =>
      cases hid : objFind fs "id" with
      | none => simp [statsRowWF, hid] at h
      | some idv =>
          cases idv with
          | arr xs =>
              cases hnth : xs[1]? with
              | none => simp [serverStatsKey, Val.getField, hid, ok_bind, Val.nth, hnth]
              | some v => simp [serverStatsKey, Val.getField, hid, ok_bind, Val.nth, hnth]
          | null => simp [statsRowWF, hid, isStrArrB] at h
          | bool b => simp [statsRowWF, hid, isStrArrB] at h
          | str s => simp [statsRowWF, hid, isStrArrB] at h
          | num n => simp [statsRowWF, hid, isStrArrB] at h
          | obj gs => simp [statsRowWF, hid, isStrArrB] at h
  | null => cases h
  | bool b => cases h
  | str s => cases h
  | num n => cases h
  | arr xs => cases h

/-- Full-pipeline helper: under the system-table invariants (well-formed
stats ids, object config rows, well-formed statuses) and the §3 invariant
that every status row's table has a config row, `query_replicas_with_stats`
succeeds, yields exactly one tuple per flattened record, and every yielded
tuple is restricted to the declared fields. -/
theorem replicas_pipeline_ok (db : DB)
    (hstats : statsWF db.stats = true)
    (hscfg : configRowsWF db.server_config = true)
    (hstatus : statusesWF db.table_status = true)
    (htbl : ∀ row ∈ db.table_status, ∃ cfgfs,
      tableFind db.table_config (rowIdD row) = some (.obj cfgfs)) :
    ∃ outs, query_replicas_with_stats db = .ok outs ∧
      outs.length = (db.table_status.flatMap flatRow).length ∧
      (∀ rec ∈ db.table_status.flatMap flatRow,
        ∃ erow, enrichReplica db rec = .ok erow) ∧
      ∀ tup ∈ outs,
        fieldsSub tup.1 ["id", "db", "name"] = true ∧
        fieldsSub tup.2.1 ["id", "name", "tags"] = true ∧
        fieldsSub tup.2.2.1 ["server", "state"] = true ∧
        fieldsSub tup.2.2.2 ["query_engine", "storage_engine"] = true := by
  have hflat := flatten_eq db.table_status hstatus
  have hok : ∀ rec ∈ db.table_status.flatMap flatRow,
      ∃ erow, enrichReplica db rec = .ok erow ∧
        ∃ tup, tupleOfRow erow = .ok tup ∧
          fieldsSub tup.1 ["id", "db", "name"] = true ∧
          fieldsSub tup.2.1 ["id", "name", "tags"] = true ∧
          fieldsSub tup.2.2.1 ["server", "state"] = true ∧
          fieldsSub tup.2.2.2 ["query_engine", "storage_engine"] = true := by
    intro rec hrec
    obtain ⟨row, hrow, hrec2⟩ := List.mem_flatMap.mp hrec
    have hwfrow := (List.all_eq_true.mp hstatus) row hrow
    obtain ⟨repfs, hform⟩ := flatRow_mem_shape row rec hwfrow hrec2
    obtain ⟨cfgfs, hcfg⟩ := htbl row hrow
    obtain ⟨sPl, stPl, erow, henrich, hsv, hstv, ht, hs, hrep, hst, hsub1, hsub2,
      htup⟩ := enrichReplica_flat db (rowIdD row)
        (pluckFieldsPure ["server", "state"] repfs) cfgfs hcfg hscfg hstats
    subst hform
    refine ⟨erow, henrich,
      (.obj (pluckFieldsPure ["id", "db", "name"] cfgfs), sPl,
        .obj (pluckFieldsPure ["server", "state"] repfs), stPl), htup,
      pluckTop_fieldsSub _ (.obj cfgfs) _ rfl, hsub1,
      pluckTop_fieldsSub _ (.obj repfs) _ rfl, hsub2⟩
  obtain ⟨mid, hmid, hmidlen⟩ :=
    mapE_exists_of_forall (enrichReplica db) _
      (fun rec hrec => (hok rec hrec).imp (fun e he => he.1))
  have htupmid : ∀ erow ∈ mid, ∃ tup, tupleOfRow erow = .ok tup ∧
      fieldsSub tup.1 ["id", "db", "name"] = true ∧
      fieldsSub tup.2.1 ["id", "name", "tags"] = true ∧
      fieldsSub tup.2.2.1 ["server", "state"] = true ∧
      fieldsSub tup.2.2.2 ["query_engine", "storage_engine"] = true := by
    intro erow hmemmid
    obtain ⟨rec, hrec, hfe⟩ := mapE_mem _ _ _ hmid erow hmemmid
    obtain ⟨erow2, he2, tup, htup, hr1, hr2, hr3, hr4⟩ := hok rec hrec
    have heq : erow2 = erow := by
      rw [hfe] at he2
      exact (Except.ok.inj he2).symm
    subst heq
    exact ⟨tup, htup, hr1, hr2, hr3, hr4⟩
  obtain ⟨outs, houts, houtslen⟩ :=
    mapE_exists_of_forall tupleOfRow mid
      (fun erow hm => ((htupmid erow hm).imp (fun t ht => ht.1)))
  refine ⟨outs, ?_, by rw [houtslen, hmidlen],
    fun rec hrec => ((hok rec hrec).imp (fun e he => he.1)), ?_⟩
  · simp [query_replicas_with_stats, hflat, ok_bind, hmid, houts]
  · intro tup htupmem
    obtain ⟨erow, hmemmid, hfe⟩ := mapE_mem _ _ _ houts tup htupmem
    obtain ⟨tup2, htup2, hr1, hr2, hr3, hr4⟩ := htupmid erow hmemmid
    have heq : tup2 = tup := by
      rw [hfe] at htup2
      exact (Except.ok.inj htup2).symm
    subst heq
    exact ⟨hr1, hr2, hr3, hr4⟩

/-- C4: topology flattening is size-preserving — on well-formed table_status
rows the flattening prefix of `query_replicas_with_stats` succeeds and
produces exactly as many flat records as the sum over all tables of the sum
over all of that table's shards of the shard's replica count; in particular
(third conjunct, instantiated by the witness at a zero-shard table and a
zero-replica shard) a table with zero shards or a shard with zero replicas
contributes zero records, not an error and not a null-replica record. -/
theorem c4_flattening_size_preserving (rows : List Val)
    (h : statusesWF rows = true) :
    flattenTableStatuses rows = .ok (rows.flatMap flatRow) ∧
      (rows.flatMap flatRow).length =
        (rows.map (fun row =>
          ((rowShards row).map (fun sh => (shardReplicas sh).length)).sum)).sum ∧
      ∀ row : Val, (flatRow row).length =
        ((rowShards row).map (fun sh => (shardReplicas sh).length)).sum :=
  ⟨flatten_eq rows h, flat_total_length rows, fun row => flatRow_length row⟩

/-- Witness for C4 on the concrete scenario `c4db`: a zero-shard table and an
empty shard contribute zero records, while the two-replica shard contributes
two, for a total of 0 + (0 + 2). -/
theorem c4_witness :
    flattenTableStatuses c4db.table_status = .ok (c4db.table_status.flatMap flatRow) ∧
      (c4db.table_status.flatMap flatRow).length =
        (c4db.table_status.map (fun row =>
          ((rowShards row).map (fun sh => (shardReplicas sh).length)).sum)).sum ∧
      ∀ row : Val, (flatRow row).length =
        ((rowShards row).map (fun sh => (shardReplicas sh).length)).sum :=
  c4_flattening_size_preserving c4db.table_status (by decide)

/-- C8: the two-level expansion preserves the table identifier — flattening
computes per-row record lists, and every record flattened from a
table_status row carries that row's id in its `table` field. -/
theorem c8_table_anchor_preserved (rows : List Val) (h : statusesWF rows = true) :
    flattenTableStatuses rows = .ok (rows.flatMap flatRow) ∧
      ∀ row ∈ rows, ∀ rec ∈ flatRow row,
        rec.getField "table" = .ok (rowIdD row) :=
  ⟨flatten_eq rows h, fun row _ rec hrec => flatRow_table row rec hrec⟩

/-- Witness for C8 on the two-replica scenario `c6db`. -/
theorem c8_witness :
    flattenTableStatuses c6db.table_status = .ok (c6db.table_status.flatMap flatRow) ∧
      ∀ row ∈ c6db.table_status, ∀ rec ∈ flatRow row,
        rec.getField "table" = .ok (rowIdD row) :=
  c8_table_anchor_preserved c6db.table_status (by decide)

/-- C7: a flattened record whose table has no table_config row makes the
enrichment raise the type error of plucking the `null` returned by `get`
(the absence is never silently defaulted — there is no `default` on this
lookup), and the whole `query_replicas_with_stats` cycle fails with an
error rather than yielding a defaulted tuple. -/
theorem c7_missing_table_config_fails (db : DB) (flat : List Val) (rec tkey : Val)
    (hflat : flattenTableStatuses db.table_status = .ok flat)
    (hmem : rec ∈ flat)
    (htk : rec.getField "table" = .ok tkey)
    (hnone : tableFind db.table_config tkey = none) :
    enrichReplica db rec = .error .typeError ∧
      ∃ e, query_replicas_with_stats db = .error e := by
  have herr : enrichReplica db rec = .error .typeError := by
    have h1 := enrichTable_null db rec tkey htk hnone
    simp [enrichReplica, h1, error_bind]
  refine ⟨herr, ?_⟩
  obtain ⟨e2, he2⟩ := mapE_error_of_mem (enrichReplica db) flat rec hmem _ herr
  exact ⟨e2, by simp [query_replicas_with_stats, hflat, ok_bind, he2, error_bind]⟩

/-- Witness for C7 on the scenario `c7db`, whose table `T2` has no
table_config row. -/
theorem c7_witness :
    enrichReplica c7db c7rec = .error .typeError ∧
      ∃ e, query_replicas_with_stats c7db = .error e :=
  c7_missing_table_config_fails c7db [c7rec] c7rec (.str "T2")
    (by decide) (by decide) (by decide) (by decide)

/-- C6: replica enrichment is total — under the system-table invariants and
with every status row's table configured, `query_replicas_with_stats`
succeeds and yields exactly one tuple per flattened replica record (the
output length equals the flat record count, and each record's enrichment
succeeds), never zero and never more than one. -/
theorem c6_enrichment_total (db : DB)
    (hstats : statsWF db.stats = true)
    (hscfg : configRowsWF db.server_config = true)
    (hstatus : statusesWF db.table_status = true)
    (htbl : ∀ row ∈ db.table_status, ∃ cfgfs,
      tableFind db.table_config (rowIdD row) = some (.obj cfgfs)) :
    ∃ outs, query_replicas_with_stats db = .ok outs ∧
      outs.length = (db.table_status.flatMap flatRow).length ∧
      ∀ rec ∈ db.table_status.flatMap flatRow,
        ∃ erow, enrichReplica db rec = .ok erow := by
  obtain ⟨outs, hq, hlen, hall, _⟩ :=
    replicas_pipeline_ok db hstats hscfg hstatus htbl
  exact ⟨outs, hq, hlen, hall⟩

/-- Witness for C6 on the specification's own two-replica scenario `c6db`
(one configured server, one disconnected). -/
theorem c6_witness :
    ∃ outs, query_replicas_with_stats c6db = .ok outs ∧
      outs.length = (c6db.table_status.flatMap flatRow).length ∧
      ∀ rec ∈ c6db.table_status.flatMap flatRow,
        ∃ erow, enrichReplica c6db rec = .ok erow :=
  c6_enrichment_total c6db (by decide) (by decide) (by decide)
    (fun row hrow => by
      exact ⟨[("id", .str "T1"), ("db", .str "d"), ("name", .str "t1")],
        by rw [List.mem_singleton.mp hrow]; decide⟩)

/-- C1 (amended): for a flattened replica record whose server id has no
server_config row, the enrichment substitutes exactly the server value
`{'id': null}` — the `name` and `tags` fields are ABSENT, because
`pluck('id', 'name', 'tags')` silently drops selectors missing from the
`default` object — and the enrichment yields the tuple normally, never
raising. -/
theorem c1_missing_server_default (db : DB) (tid skey : Val)
    (rpfs cfgfs : List (String × Val))
    (hfind : tableFind db.table_config tid = some (.obj cfgfs))
    (hscfg : configRowsWF db.server_config = true)
    (hstats : statsWF db.stats = true)
    (hskey : objFind rpfs "server" = some skey)
    (hnone : tableFind db.server_config skey = none) :
    ∃ erow, enrichReplica db (.obj [("table", tid), ("replica", .obj rpfs)]) =
        .ok erow ∧
      erow.getField "server" = .ok (.obj [("id", .null)]) ∧
      ∃ tup, tupleOfRow erow = .ok tup := by
  obtain ⟨sPl, stPl, erow, henrich, hsv, hstv, ht, hs, hrep, hst, hsub1, hsub2,
    htup⟩ := enrichReplica_flat db tid rpfs cfgfs hfind hscfg hstats
  have hdef : serverValueFor db (.obj [("table", tid), ("replica", .obj rpfs)]) =
      .ok (.obj [("id", .null)]) :=
    serverValueFor_default db _ (.obj rpfs) skey rfl
      (by simp [Val.getField, hskey]) hnone
  have hspl : sPl = .obj [("id", .null)] := by
    rw [hsv] at hdef
    exact Except.ok.inj hdef
  exact ⟨erow, henrich, by rw [hs, hspl], ⟨_, htup⟩⟩

/-- Counterexample for C1 as stated: on `c1db` (table `T1`, one replica on
the unconfigured server `B`) the query yields the tuple normally, but the
substituted server value is exactly `{'id': null}`: its `tags` field is a
non-existence error — the field is absent, not present-and-empty — refuting
the claimed substitute `{id: null, name: absent, tags: empty}` read as an
empty tags value. -/
theorem c1_counterexample :
    query_replicas_with_stats c1db =
      .ok [(.obj [("id", .str "T1"), ("db", .str "d"), ("name", .str "t1")],
            .obj [("id", .null)],
            .obj [("server", .str "B"), ("state", .str "disconnected")],
            .obj [])] ∧
      Val.getField (.obj [("id", .null)]) "tags" = .error .nonExistence ∧
      Val.getField (.obj [("id", .null)]) "name" = .error .nonExistence :=
  ⟨by decide, by decide, by decide⟩

/-- Witness for the amended C1 on the `c1db` scenario. -/
theorem c1_witness :
    ∃ erow, enrichReplica c1db (.obj [("table", .str "T1"),
        ("replica", .obj [("server", .str "B"), ("state", .str "disconnected")])]) =
        .ok erow ∧
      erow.getField "server" = .ok (.obj [("id", .null)]) ∧
      ∃ tup, tupleOfRow erow = .ok tup :=
  c1_missing_server_default c1db (.str "T1") (.str "B")
    [("server", .str "B"), ("state", .str "disconnected")]
    [("id", .str "T1"), ("db", .str "d"), ("name", .str "t1")]
    (by decide) (by decide) (by decide) (by decide) (by decide)

/-- C10: for a flattened replica record whose server id is absent from
server_config, the enriched server is `{'id': null}`, so the stats lookup
key is `['table_server', tableId, null]`; since well-formed stats rows are
keyed by arrays of strings, that key matches no stats row, and the yielded
stats value is the empty object — regardless of which stats rows exist for
that table and server. -/
theorem c10_missing_server_empty_stats (db : DB) (tid skey : Val)
    (rpfs cfgfs : List (String × Val))
    (hfind : tableFind db.table_config tid = some (.obj cfgfs))
    (hscfg : configRowsWF db.server_config = true)
    (hstats : statsWF db.stats = true)
    (hskey : objFind rpfs "server" = some skey)
    (hnone : tableFind db.server_config skey = none) :
    ∃ erow, enrichReplica db (.obj [("table", tid), ("replica", .obj rpfs)]) =
        .ok erow ∧
      erow.getField "server" = .ok (.obj [("id", .null)]) ∧
      erow.getField "stats" = .ok (.obj []) := by
  obtain ⟨sPl, stPl, erow, henrich, hsv, hstv, ht, hs, hrep, hst, hsub1, hsub2,
    htup⟩ := enrichReplica_flat db tid rpfs cfgfs hfind hscfg hstats
  have hdef : serverValueFor db (.obj [("table", tid), ("replica", .obj rpfs)]) =
      .ok (.obj [("id", .null)]) :=
    serverValueFor_default db _ (.obj rpfs) skey rfl
      (by simp [Val.getField, hskey]) hnone
  have hspl : sPl = .obj [("id", .null)] := by
    rw [hsv] at hdef
    exact Except.ok.inj hdef
  subst hspl
  have hempty : statsValueFor db
      (.obj [("table", .obj (pluckFieldsPure ["id", "db", "name"] cfgfs)),
        ("server", .obj [("id", .null)])]) = .ok (.obj []) := by
    cases hcid : objFind (pluckFieldsPure ["id", "db", "name"] cfgfs) "id" with
    | none =>
        have hg : Val.getField (.obj (pluckFieldsPure ["id", "db", "name"] cfgfs))
            "id" = .error .nonExistence := by
          simp only [Val.getField, hcid]
        have hpl : pluckTop ["query_engine", "storage_engine"] (.obj []) =
            .ok (.obj []) := rfl
        simp [statsValueFor, Val.getField, objFind, hg, hcid, ok_bind, error_bind,
          ok_map, error_map, defaultVal, hpl]
    | some tid2 =>
        exact statsValueFor_empty db _
          (.obj (pluckFieldsPure ["id", "db", "name"] cfgfs))
          (.obj [("id", .null)]) tid2 .null rfl
          (by simp [Val.getField, hcid]) rfl rfl
          (tableFind_null_component db.stats hstats tid2)
  have hstpl : stPl = .obj [] := by
    rw [hstv] at hempty
    exact Except.ok.inj hempty
  exact ⟨erow, henrich, hs, by rw [hst, hstpl]⟩

/-- Witness for C10 on `c10db`: the stats table even contains a row keyed
`['table_server', 'T1', 'B']` for the very table and server of the record,
yet the yielded stats value is still empty. -/
theorem c10_witness :
    ∃ erow, enrichReplica c10db (.obj [("table", .str "T1"),
        ("replica", .obj [("server", .str "B"), ("state", .str "disconnected")])]) =
        .ok erow ∧
      erow.getField "server" = .ok (.obj [("id", .null)]) ∧
      erow.getField "stats" = .ok (.obj []) :=
  c10_missing_server_empty_stats c10db (.str "T1") (.str "B")
    [("server", .str "B"), ("state", .str "disconnected")]
    [("id", .str "T1"), ("db", .str "d"), ("name", .str "t1")]
    (by decide) (by decide) (by decide) (by decide) (by decide)

/-- C5: for a flattened replica record whose `['table_server', tableId,
server.id]` key matches no stats row, `default` substitutes the empty
object, whose `{query_engine, storage_engine}` pluck is the empty object —
the tuple is yielded normally with empty stats, never raising. -/
theorem c5_missing_stats_empty (db : DB) (tid tid2 sid sPl : Val)
    (rpfs cfgfs : List (String × Val))
    (hfind : tableFind db.table_config tid = some (.obj cfgfs))
    (hscfg : configRowsWF db.server_config = true)
    (hstats : statsWF db.stats = true)
    (hsv : serverValueFor db (.obj [("table", tid), ("replica", .obj rpfs)]) =
      .ok sPl)
    (htid2 : Val.getField (.obj (pluckFieldsPure ["id", "db", "name"] cfgfs)) "id" =
      .ok tid2)
    (hsid : sPl.getField "id" = .ok sid)
    (hnostat : tableFind db.stats (.arr [.str "table_server", tid2, sid]) = none) :
    ∃ erow, enrichReplica db (.obj [("table", tid), ("replica", .obj rpfs)]) =
        .ok erow ∧
      erow.getField "stats" = .ok (.obj []) ∧
      ∃ tup, tupleOfRow erow = .ok tup := by
  obtain ⟨sPl2, stPl, erow, henrich, hsv2, hstv, ht, hs, hrep, hst, hsub1, hsub2,
    htup⟩ := enrichReplica_flat db tid rpfs cfgfs hfind hscfg hstats
  have hspl : sPl2 = sPl := by
    rw [hsv2] at hsv
    exact Except.ok.inj hsv
  subst hspl
  have hempty : statsValueFor db
      (.obj [("table", .obj (pluckFieldsPure ["id", "db", "name"] cfgfs)),
        ("server", sPl2)]) = .ok (.obj []) :=
    statsValueFor_empty db _ (.obj (pluckFieldsPure ["id", "db", "name"] cfgfs))
      sPl2 tid2 sid rfl htid2 rfl hsid hnostat
  have hstpl : stPl = .obj [] := by
    rw [hstv] at hempty
    exact Except.ok.inj hempty
  exact ⟨erow, henrich, by rw [hst, hstpl], ⟨_, htup⟩⟩

/-- Witness for C5 on `c5db`: a replica on configured server `A` whose
`['table_server', 'T1', 'A']` stats row does not exist. -/
theorem c5_witness :
    ∃ erow, enrichReplica c5db (.obj [("table", .str "T1"),
        ("replica", .obj [("server", .str "A"), ("state", .str "ready")])]) =
        .ok erow ∧
      erow.getField "stats" = .ok (.obj []) ∧
      ∃ tup, tupleOfRow erow = .ok tup :=
  c5_missing_stats_empty c5db (.str "T1") (.str "T1") (.str "A")
    (.obj [("id", .str "A"), ("name", .str "srvA"), ("tags", .arr [])])
    [("server", .str "A"), ("state", .str "ready")]
    [("id", .str "T1"), ("db", .str "d"), ("name", .str "t1")]
    (by decide) (by decide) (by decide) (by decide) (by decide) (by decide)
    (by decide)

/-- The join function underlying `eqJoin` only produces pairs whose left
component is the originating left row. -/
theorem joinFun_fst (key : Val → Except RErr Val) (right : List Val) (x : Val)
    (p : Val × Val)
    (h : (match key x with
      | .ok k => if k = .null then none
        else (tableFind right k).map (fun r => (x, r))
      | .error _ => none) = some p) : p.1 = x := by
  cases hk : key x with
  | error e => rw [hk] at h; cases h
  | ok k =>
      rw [hk] at h
      have h2 : (if k = .null then none
          else (tableFind right k).map (fun r => (x, r))) = some p := h
      by_cases hn : k = .null
      · rw [if_pos hn] at h2; cases h2
      · rw [if_neg hn] at h2
        cases hfind : tableFind right k with
        | none => rw [hfind] at h2; cases h2
        | some r =>
            rw [hfind] at h2
            cases h2
            rfl

/-- Closed form of `query_servers_with_stats` on a well-formed stats table:
filter on `id[0] == 'server'`, join on `id[1]` against server_config, swap
each pair. -/
theorem servers_join_characterization (db : DB) (hwf : statsWF db.stats = true) :
    query_servers_with_stats db = .ok
      (((db.stats.filter (fun x => idHead x == some "server")).filterMap (fun x =>
        match serverStatsKey x with
        | .ok k => if k = .null then none
          else (tableFind db.server_config k).map (fun r => (x, r))
        | .error _ => none)).map (fun p => (p.2, p.1))) := by
  have hfil := filterRows_stats_tag "server" isServerStatsRow (fun row => rfl)
    db.stats hwf
  have hkey : ∀ x ∈ db.stats.filter (fun x => idHead x == some "server"),
      serverStatsKey x ≠ .error .typeError := fun x hx =>
    serverStatsKey_no_typeError x
      ((List.all_eq_true.mp hwf) x (List.mem_of_mem_filter hx))
  have hjoin := eqJoin_filterMap serverStatsKey db.server_config _ hkey
  simp [query_servers_with_stats, hfil, ok_bind, hjoin]

/-- Closed form of `query_tables_with_stats` on a well-formed stats table. -/
theorem tables_join_characterization (db : DB) (hwf : statsWF db.stats = true) :
    query_tables_with_stats db = .ok
      (((db.stats.filter (fun x => idHead x == some "table")).filterMap (fun x =>
        match tableStatsKey x with
        | .ok k => if k = .null then none
          else (tableFind db.table_config k).map (fun r => (x, r))
        | .error _ => none)).map (fun p => (p.2, p.1))) := by
  have hfil := filterRows_stats_tag "table" isTableStatsRow (fun row => rfl)
    db.stats hwf
  have hkey : ∀ x ∈ db.stats.filter (fun x => idHead x == some "table"),
      tableStatsKey x ≠ .error .typeError := fun x hx =>
    serverStatsKey_no_typeError x
      ((List.all_eq_true.mp hwf) x (List.mem_of_mem_filter hx))
  have hjoin := eqJoin_filterMap tableStatsKey db.table_config _ hkey
  simp [query_tables_with_stats, hfil, ok_bind, hjoin]

/-- C2 (amended): classification inspects only the first element of the
composite identifier — on a well-formed stats table both join queries
succeed (never raise), and every joined stats row has `id[0] = 'server'`
(resp. `'table'`); rows whose id begins with anything else, or whose id is
empty, are silently excluded.  (The code does not inspect the identifier's
length, so e.g. `['server', S, extra]` still joins as a server-stats row —
see the counterexample.) -/
theorem c2_classification_by_head (db : DB) (hwf : statsWF db.stats = true) :
    (∃ out, query_servers_with_stats db = .ok out ∧
      ∀ srv st : Val, (srv, st) ∈ out →
        st ∈ db.stats ∧ idHead st = some "server") ∧
    (∃ out, query_tables_with_stats db = .ok out ∧
      ∀ tbl st : Val, (tbl, st) ∈ out →
        st ∈ db.stats ∧ idHead st = some "table") := by
  constructor
  · refine ⟨_, servers_join_characterization db hwf, ?_⟩
    intro srv st hmem
    obtain ⟨q, hq, hswap⟩ := List.mem_map.mp hmem
    obtain ⟨x, hx, hjf⟩ := List.mem_filterMap.mp hq
    have hq1 : q.1 = x := joinFun_fst serverStatsKey db.server_config x q hjf
    have hst : x = st := by
      have := congrArg Prod.snd hswap
      simpa [hq1] using this
    subst hst
    have hx2 := List.mem_filter.mp hx
    exact ⟨hx2.1, by simpa using hx2.2⟩
  · refine ⟨_, tables_join_characterization db hwf, ?_⟩
    intro tbl st hmem
    obtain ⟨q, hq, hswap⟩ := List.mem_map.mp hmem
    obtain ⟨x, hx, hjf⟩ := List.mem_filterMap.mp hq
    have hq1 : q.1 = x := joinFun_fst tableStatsKey db.table_config x q hjf
    have hst : x = st := by
      have := congrArg Prod.snd hswap
      simpa [hq1] using this
    subst hst
    have hx2 := List.mem_filter.mp hx
    exact ⟨hx2.1, by simpa using hx2.2⟩

/-- Counterexample for C2 as stated: the stats row keyed
`['server', 's1', 'junk']` has none of the three listed shapes, yet it is
NOT excluded from the server join — the query yields a tuple for it, because
the filter checks only `id[0]` and the join key only `id[1]`. -/
theorem c2_counterexample :
    query_servers_with_stats c2db =
      .ok [(.obj [("id", .str "s1"), ("name", .str "a")],
            .obj [("id", .arr [.str "server", .str "s1", .str "junk"]),
                  ("extra", .num 1)])] ∧
      query_servers_with_stats c2db ≠ .ok [] :=
  ⟨by decide, by decide⟩

/-- Witness for the amended C2 on `c2db`. -/
theorem c2_witness :
    (∃ out, query_servers_with_stats c2db = .ok out ∧
      ∀ srv st : Val, (srv, st) ∈ out →
        st ∈ c2db.stats ∧ idHead st = some "server") ∧
    (∃ out, query_tables_with_stats c2db = .ok out ∧
      ∀ tbl st : Val, (tbl, st) ∈ out →
        st ∈ c2db.stats ∧ idHead st = some "table") :=
  c2_classification_by_head c2db (by decide)

/-- C3: inner-join law for `serversWithStats` — under the primary-key
invariants, for a server-stats row keyed `['server', S]`: if a config row
with id `S` exists, the output contains exactly one tuple whose stats
component is that stats row, and it pairs it with that config row; if no
config row has id `S`, the output contains no tuple for that stats row. -/
theorem c3_servers_inner_join (db : DB) (statsRow : Val) (S : String)
    (hwf : statsWF db.stats = true)
    (hids : idDistinct db.stats = true)
    (hcids : idDistinct db.server_config = true)
    (hmem : statsRow ∈ db.stats)
    (hid : statsRow.getField "id" = .ok (.arr [.str "server", .str S])) :
    (∀ cfgRow ∈ db.server_config, cfgRow.getField "id" = .ok (.str S) →
      ∃ out, query_servers_with_stats db = .ok out ∧
        out.filter (fun p => decide (p.2 = statsRow)) = [(cfgRow, statsRow)]) ∧
    ((∀ cfgRow ∈ db.server_config, ¬(cfgRow.getField "id" = .ok (.str S))) →
      ∃ out, query_servers_with_stats db = .ok out ∧
        out.filter (fun p => decide (p.2 = statsRow)) = []) := by
  have hchar := servers_join_characterization db hwf
  have hp : (idHead statsRow == some "server") = true := by simp [idHead, hid]
  have hcount1 : db.stats.count statsRow = 1 :=
    count_eq_one_of_idDistinct db.stats statsRow _ hids hmem hid
  have hcountf : (db.stats.filter
      (fun x => idHead x == some "server")).count statsRow = 1 :=
    (@List.count_filter Val _ _ (fun x => idHead x == some "server") statsRow
      db.stats hp).trans hcount1
  have hkeyval : serverStatsKey statsRow = .ok (.str S) := by
    simp [serverStatsKey, hid, ok_bind, Val.nth]
  constructor
  · intro cfgRow hcmem hcid
    refine ⟨_, hchar, ?_⟩
    rw [join_swap_filter _ statsRow _
      (fun x p h => joinFun_fst serverStatsKey db.server_config x p h) hcountf]
    have hfindS : tableFind db.server_config (.str S) = some cfgRow :=
      tableFind_unique db.server_config (.str S) cfgRow hcids hcmem
        (rowIdIs_of_getField _ _ hcid)
    simp [hkeyval, hfindS]
  · intro hnone
    refine ⟨_, hchar, ?_⟩
    rw [join_swap_filter _ statsRow _
      (fun x p h => joinFun_fst serverStatsKey db.server_config x p h) hcountf]
    have hfindS : tableFind db.server_config (.str S) = none := by
      apply tableFind_eq_none
      intro r hr
      cases hcheck : rowIdIs (.str S) r
      · rfl
      · exact absurd (getField_of_rowIdIs _ r hcheck) (hnone r hr)
    simp [hkeyval, hfindS]

/-- Witness for C3 on `c3db`: server `A` (stats row and config row) yields
exactly one pairing; server `B` (stats row, no config row) yields none. -/
theorem c3_witness :
    (∃ out, query_servers_with_stats c3db = .ok out ∧
      out.filter (fun p => decide (p.2 = c3statsA)) = [(c3cfgA, c3statsA)]) ∧
    (∃ out, query_servers_with_stats c3db = .ok out ∧
      out.filter (fun p => decide (p.2 = c3statsB)) = []) :=
  ⟨(c3_servers_inner_join c3db c3statsA "A" (by decide) (by decide) (by decide)
      (by decide) (by decide)).1 c3cfgA (by decide) (by decide),
   (c3_servers_inner_join c3db c3statsB "B" (by decide) (by decide) (by decide)
      (by decide) (by decide)).2 (by decide)⟩

/-- C9 (amended): only the replica family restricts its output tuples to the
declared fields — under the system-table invariants every tuple yielded by
`query_replicas_with_stats` has its table restricted to `{id, db, name}`,
server to `{id, name, tags}`, replica to `{server, state}` and stats to
`{query_engine, storage_engine}`; the server and table families yield full
unplucked rows (see the counterexample). -/
theorem c9_replica_fields_restricted (db : DB)
    (hstats : statsWF db.stats = true)
    (hscfg : configRowsWF db.server_config = true)
    (hstatus : statusesWF db.table_status = true)
    (htbl : ∀ row ∈ db.table_status, ∃ cfgfs,
      tableFind db.table_config (rowIdD row) = some (.obj cfgfs)) :
    ∃ outs, query_replicas_with_stats db = .ok outs ∧
      ∀ tup ∈ outs,
        fieldsSub tup.1 ["id", "db", "name"] = true ∧
        fieldsSub tup.2.1 ["id", "name", "tags"] = true ∧
        fieldsSub tup.2.2.1 ["server", "state"] = true ∧
        fieldsSub tup.2.2.2 ["query_engine", "storage_engine"] = true := by
  obtain ⟨outs, hq, _, _, hrestrict⟩ :=
    replicas_pipeline_ok db hstats hscfg hstatus htbl
  exact ⟨outs, hq, hrestrict⟩

/-- Counterexample for C9 as stated: `query_servers_with_stats` yields the
FULL server_config row — the extraneous field `cache_size_mb` of the source
row appears in the output tuple, so the server and table families do not
restrict their tuples to the declared fields. -/
theorem c9_counterexample :
    query_servers_with_stats c9db =
      .ok [(.obj [("id", .str "A"), ("name", .str "srvA"),
                  ("cache_size_mb", .num 42)],
            .obj [("id", .arr [.str "server", .str "A"]),
                  ("query_engine", .num 1)])] ∧
      Val.getField (.obj [("id", .str "A"), ("name", .str "srvA"),
        ("cache_size_mb", .num 42)]) "cache_size_mb" = .ok (.num 42) ∧
      fieldsSub (.obj [("id", .str "A"), ("name", .str "srvA"),
        ("cache_size_mb", .num 42)]) ["id", "name", "tags"] = false :=
  ⟨by decide, by decide, by decide⟩

/-- Witness for the amended C9 on `c9rdb`, whose source rows of every kind
carry extraneous fields. -/
theorem c9_witness :
    ∃ outs, query_replicas_with_stats c9rdb = .ok outs ∧
      ∀ tup ∈ outs,
        fieldsSub tup.1 ["id", "db", "name"] = true ∧
        fieldsSub tup.2.1 ["id", "name", "tags"] = true ∧
        fieldsSub tup.2.2.1 ["server", "state"] = true ∧
        fieldsSub tup.2.2.2 ["query_engine", "storage_engine"] = true :=
  c9_replica_fields_restricted c9rdb (by decide) (by decide) (by decide)
    (fun row hrow => by
      exact ⟨[("id", .str "T1"), ("db", .str "d"), ("name", .str "t1"),
          ("primary_key", .str "id")],
        by rw [List.mem_singleton.mp hrow]; decide⟩)
